import Mathlib

/-!
Verification development for the incremental CVE sync and triage engine
(`internal/worker/update.go`).

The Go source is shallowly embedded: pure functions become Lean functions,
store mutation becomes explicit state passing, Go errors become
`Except String`, and the one possible runtime panic in `walkFiles`
(string slicing with out-of-range bounds) is modelled by an outer `Option`
(`none` = panic).  Go byte strings are modelled as Lean `String`s; byte
indexing coincides with character indexing on ASCII data, which is all the
engine's naming conventions touch.

The repository's `store` and `cveschema` packages are not part of the
provided sources; their pieces are modelled from the spec and marked as
such in their doc comments.
-/

/-- Decidable equality for `Except`, needed to evaluate concrete runs. -/
instance {ε α : Type} [DecidableEq ε] [DecidableEq α] : DecidableEq (Except ε α) :=
  fun x y =>
    match x, y with
    | .error a, .error b =>
      if h : a = b then .isTrue (by rw [h]) else .isFalse (by simp [h])
    | .ok a, .ok b =>
      if h : a = b then .isTrue (by rw [h]) else .isFalse (by simp [h])
    | .error _, .ok _ => .isFalse (by simp)
    | .ok _, .error _ => .isFalse (by simp)

namespace VulnWorker

/-- A git object hash (`plumbing.Hash`, a fixed-size byte array).  The byte
list stands for the 20 SHA-1 bytes; the theorems that need it only use the
fact that its rendered form is hex, hence of even length. -/
structure GitHash where
  bytes : List Nat
deriving DecidableEq

/-- Lower-case hex digit for a value below 16 (as `plumbing.Hash.String`). -/
def hexDigit (n : Nat) : Char :=
  if n < 10 then Char.ofNat (48 + n) else Char.ofNat (87 + (n % 16))

/-- Two-character hex rendering of one byte. -/
def hexByte (b : Nat) : List Char :=
  [hexDigit (b / 16 % 16), hexDigit (b % 16)]

/-- Hex rendering of a hash, as `plumbing.Hash.String()`. -/
def GitHash.str (h : GitHash) : String :=
  ⟨(h.bytes.map hexByte).flatten⟩

/-- Lexicographic comparison of char lists by code point; on ASCII data this
agrees with Go's byte-wise string order. -/
def charsLe : List Char → List Char → Bool
  | [], _ => true
  | _ :: _, [] => false
  | a :: as, b :: bs =>
    if a.val < b.val then true
    else if b.val < a.val then false
    else charsLe as bs

/-- Go's `s <= t` on strings (byte-wise lexicographic; ASCII assumed). -/
def strLe (a b : String) : Bool := charsLe a.data b.data

/-- Go's `strings.HasPrefix pre s`: `s` begins with `pre`. -/
def strHasPre (pre s : String) : Bool :=
  decide (s.data.take pre.data.length = pre.data)

/-- Value of a decimal digit list, most significant first. -/
def digitsVal : List Char → Nat → Nat
  | [], acc => acc
  | c :: cs, acc => digitsVal cs (acc * 10 + (c.val.toNat - 48))

/-- Digit-run phase of `strconv.Atoi`: the remaining characters after the
optional sign must be one or more digits, and the signed value must fit a
64-bit int. -/
def goAtoiDigits (s : String) (neg : Bool) (ds : List Char) : Except String Int :=
  if ds.isEmpty then .error ("strconv.Atoi: parsing " ++ s ++ ": invalid syntax")
  else if ds.all Char.isDigit then
    if (if neg then -(digitsVal ds 0 : Int) else (digitsVal ds 0 : Int)) < -(2 ^ 63) ∨
        (2 ^ 63 - 1 : Int) <
          (if neg then -(digitsVal ds 0 : Int) else (digitsVal ds 0 : Int)) then
      .error ("strconv.Atoi: parsing " ++ s ++ ": value out of range")
    else .ok (if neg then -(digitsVal ds 0 : Int) else (digitsVal ds 0 : Int))
  else .error ("strconv.Atoi: parsing " ++ s ++ ": invalid syntax")

/-- Sign phase of `strconv.Atoi` over the character list. -/
def goAtoiData (s : String) : List Char → Except String Int
  | [] => .error ("strconv.Atoi: parsing " ++ s ++ ": invalid syntax")
  | c :: cs =>
    if c = '-' then goAtoiDigits s true cs
    else if c = '+' then goAtoiDigits s false cs
    else goAtoiDigits s false (c :: cs)

/-- Go's `strconv.Atoi`: optional sign, then decimal digits, whole string;
errors on empty input, a stray character, or 64-bit overflow. -/
def goAtoi (s : String) : Except String Int :=
  goAtoiData s s.data

/-- Go string slicing `s[lo:hi]`: `none` models the runtime panic when
`lo > hi` or `hi > len(s)`. -/
def goSlice (s : String) (lo hi : Nat) : Option String :=
  if lo ≤ hi ∧ hi ≤ s.data.length then some ⟨(s.data.drop lo).take (hi - lo)⟩
  else none

/-- Scan for `path.Ext`, walking the reversed path: stop at a slash, return
from the final dot. -/
def extFromRev : List Char → List Char → List Char
  | [], _ => []
  | c :: rest, acc =>
    if c = '/' then []
    else if c = '.' then '.' :: acc
    else extFromRev rest (c :: acc)

/-- Go's `path.Ext`: the suffix from the final dot of the last path element,
or empty. -/
def goPathExt (s : String) : String := ⟨extFromRev s.data.reverse []⟩

/-- Go's `path.Base`: the last element of the path. -/
def goPathBase (s : String) : String :=
  if s.data.isEmpty then "."
  else
    let r := s.data.reverse.dropWhile (fun c => c = '/')
    if r.isEmpty then "/"
    else ⟨(r.takeWhile (fun c => c ≠ '/')).reverse⟩

/-- Go's `strings.TrimSuffix s sfx`: drop `sfx` from the end when present. -/
def goTrimEnd (s sfx : String) : String :=
  if s.data.length ≥ sfx.data.length ∧
      s.data.drop (s.data.length - sfx.data.length) = sfx.data then
    ⟨s.data.take (s.data.length - sfx.data.length)⟩
  else s

/-- Go's `path.Join a b` for the clean, relative paths this engine builds. -/
def pathJoin (a b : String) : String :=
  if a = "" then b else if b = "" then a else a ++ "/" ++ b

/-- Function `idFromFilename` extracts the CVE ID from its filename
(`strings.TrimSuffix(path.Base(name), path.Ext(name))`). -/
def idFromFilename (name : String) : String :=
  goTrimEnd (goPathBase name) (goPathExt name)

/-- Function `isCVEFilename` reports whether name is the basename of a CVE file. -/
def isCVEFilename (name : String) : Bool :=
  strHasPre "CVE-" name && goPathExt name = ".json"

/-- One source record (`repoFile`).  `year`/`number` are Go `int`s, so `Int`
here (Atoi can return negatives). -/
structure RepoFile where
  dirPath : String
  filename : String
  treeHash : GitHash
  blobHash : GitHash
  year : Int
  number : Int
deriving DecidableEq

/-- Part of `walkFiles` handling one accepted leaf name: the epoch is
`name[4:8]`, the sequence is `name[9 : len(name)-5]`, both through
`strconv.Atoi`; a slice with bad bounds panics (`none`), a failed parse
fails the walk. -/
def parseCVEName (name : String) : Option (Except String (Int × Int)) :=
  match goSlice name 4 8 with
  | none => none
  | some ys =>
    match goAtoi ys with
    | .error e => some (.error e)
    | .ok year =>
      match goSlice name 9 (name.data.length - 5) with
      | none => none
      | some ns =>
        match goAtoi ns with
        | .error e => some (.error e)
        | .ok number => some (.ok (year, number))

/-- Entry list of one git tree object.  A `dir` entry carries the subtree's
hash and entries inline: the embedding inlines what `repo.TreeObject`
would fetch, which also bakes in the acyclicity git guarantees. -/
inductive GitEntries where
  | nil
  | dir (nm : String) (hash : GitHash) (sub : GitEntries) (rest : GitEntries)
  | blob (nm : String) (hash : GitHash) (rest : GitEntries)

/-- Function `walkFiles` collects CVE files from a repo tree; `none` models a panic
inside the name parsing. -/
def walkFiles (treeHash : GitHash) (es : GitEntries) (dirpath : String)
    (files : List RepoFile) : Option (Except String (List RepoFile)) :=
  match es with
  | .nil => some (.ok files)
  | .dir nm h sub rest =>
    match walkFiles h sub (pathJoin dirpath nm) files with
    | none => none
    | some (.error e) => some (.error e)
    | some (.ok files2) => walkFiles treeHash rest dirpath files2
  | .blob nm h rest =>
    if isCVEFilename nm then
      match parseCVEName nm with
      | none => none
      | some (.error e) => some (.error e)
      | some (.ok (year, number)) =>
        walkFiles treeHash rest dirpath
          (files ++ [{ dirPath := dirpath, filename := nm, treeHash := treeHash,
                       blobHash := h, year := year, number := number }])
    else walkFiles treeHash rest dirpath files

/-- Comparator of `repoCVEFiles`' sort: ascending by `(year, number)` as
integers (the non-strict form of the `sort.Slice` less function). -/
def fileLE (f g : RepoFile) : Bool :=
  if f.year ≠ g.year then decide (f.year < g.year) else decide (f.number ≤ g.number)

/-- The comparator as a decidable relation, for the sort. -/
def fileLEP (f g : RepoFile) : Prop := fileLE f g = true

instance : DecidableRel fileLEP := fun f g =>
  inferInstanceAs (Decidable (fileLE f g = true))

/-- Modelled from the spec: the decoded structured content of one record
(`cveschema.CVE`), reduced to the two fields this engine reads —
the identifier and the publication state. -/
structure CVE where
  ID : String
  State : String
deriving DecidableEq

/-- Modelled from the spec: the "public" publication state
(`cveschema.StatePublic`). -/
def StatePublic : String := "PUBLIC"

/-- One commit: its time and its root tree (hash plus entries). -/
structure Commit where
  commitTime : Nat
  treeHash : GitHash
  tree : GitEntries

/-- The source tree reader collaborator: commit lookup plus, fused with the
JSON decoding step of `handleCVE`, a map from blob hash to decoded CVE
(`.error` covers both a blob read failure and a decode failure). -/
structure Repo where
  commits : GitHash → Option Commit
  blobCVE : GitHash → Except String CVE

/-- Function `repoCVEFiles` returns all the CVE files in the given repo commit,
sorted by `(year, number)`.  Go's `sort.Slice` is realized by a sort that
is correct for the same comparator. -/
def repoCVEFiles (commit : Commit) : Option (Except String (List RepoFile)) :=
  match walkFiles commit.treeHash commit.tree "" [] with
  | none => none
  | some (.error e) => some (.error e)
  | some (.ok files) => some (.ok (files.insertionSort fileLEP))

/-- Head directory path of a group (groups are always nonempty). -/
def headDirPath : List RepoFile → String
  | [] => ""
  | f :: _ => f.dirPath

/-- Rendered tree hash of a group's first file — the value `updateDirectory`
uses both for the gate comparison and for the final marker write. -/
def headHashStr : List RepoFile → String
  | [] => ""
  | f :: _ => f.treeHash.str

/-- Loop body of `groupFilesByDirectory`: start a new run whenever the file's
directory differs from the current run's first entry. -/
def buildGroups : List RepoFile → List (List RepoFile) → List RepoFile →
    List (List RepoFile)
  | [], result, curDir => if curDir.isEmpty then result else result ++ [curDir]
  | f :: fs, result, curDir =>
    match curDir with
    | [] => buildGroups fs result [f]
    | c0 :: _ =>
      if f.dirPath ≠ c0.dirPath then buildGroups fs (result ++ [curDir]) [f]
      else buildGroups fs result (curDir ++ [f])

/-- The `seen`-map check of `groupFilesByDirectory`: the first directory path
occurring twice among the group heads, if any. -/
def dupHead : List String → List String → Option String
  | [], _ => none
  | d :: ds, seen => if seen.contains d then some d else dupHead ds (d :: seen)

/-- Function `groupFilesByDirectory` collects files by directory, verifying that
directories are contiguous in the list of files. -/
def groupFilesByDirectory (files : List RepoFile) :
    Except String (List (List RepoFile)) :=
  if files.isEmpty then .ok []
  else
    match dupHead ((buildGroups files [] []).map headDirPath) [] with
    | some d =>
      .error ("directory " ++ d ++ " is not contiguous in the sorted list of files")
    | none => .ok (buildGroups files [] [])

/-- Modelled from the spec: one stored record (`store.CVERecord`), with the
persisted fields the spec lists — identifier, path, file-hash, publication
state, commit hash, triage state, triage reason. -/
structure CVERecord where
  ID : String
  Path : String
  BlobHash : String
  CVEState : String
  CommitHash : String
  TriageState : String
  TriageStateReason : String
deriving DecidableEq

/-- Modelled from the spec: the four triage workflow states; the stored
field is a string, so an unknown value is representable (the code's
`default` case). -/
def TriageStateNoActionNeeded : String := "NoActionNeeded"

/-- Modelled from the spec: see `TriageStateNoActionNeeded`. -/
def TriageStateNeedsIssue : String := "NeedsIssue"

/-- Modelled from the spec: see `TriageStateNoActionNeeded`. -/
def TriageStateIssueCreated : String := "IssueCreated"

/-- Modelled from the spec: see `TriageStateNoActionNeeded`. -/
def TriageStateUpdatedSinceIssueCreation : String := "UpdatedSinceIssueCreation"

/-- Modelled from the spec: `store.NewCVERecord` copies identifier, path,
hash and publication state from the source; the remaining fields start at
Go's zero value. -/
def NewCVERecord (cve : CVE) (path : String) (blobHash : String) : CVERecord :=
  { ID := cve.ID, Path := path, BlobHash := blobHash, CVEState := cve.State,
    CommitHash := "", TriageState := "", TriageStateReason := "" }

/-- Modelled from the spec: the run record (`store.CommitUpdateRecord`).
`EndedAt = none` is Go's zero time, i.e. a run not yet finalized. -/
structure CommitUpdateRecord where
  StartedAt : Nat
  EndedAt : Option Nat
  CommitHash : String
  CommitTime : Nat
  NumTotal : Nat
  NumProcessed : Nat
  NumAdded : Nat
  NumModified : Nat
  Error : String
deriving DecidableEq

/-- Lookup of a stored record by identifier. -/
def lookupRec (id : String) : List CVERecord → Option CVERecord
  | [] => none
  | r :: rs => if r.ID = id then some r else lookupRec id rs

/-- Modelled from the spec: writing one stored record keyed by identifier
(`tx.SetCVERecord` / `tx.CreateCVERecord`, both create-or-update), replacing
in place. -/
def setRec (r : CVERecord) : List CVERecord → List CVERecord
  | [] => [r]
  | r' :: rs => if r'.ID = r.ID then r :: rs else r' :: setRec r rs

/-- Modelled from the spec: the bulk range read `tx.GetCVERecords(start, end)`
— every stored record whose identifier lies in `[start, end]` under the
store's identifier (string) order. -/
def getCVERecords (startID endID : String) (recs : List CVERecord) :
    List CVERecord :=
  recs.filter (fun r => strLe startID r.ID && strLe r.ID endID)

/-- In-memory lookup built from the range read (`idToRecord`); a later
record with the same identifier wins, as in the Go map loop. -/
def buildIdMap (crs : List CVERecord) : String → Option CVERecord :=
  crs.foldl (fun m cr => fun id => if id = cr.ID then some cr else m id)
    (fun _ => none)

/-- Association-list update used for directory markers and run records. -/
def assocSet (k : String) (v : α) : List (String × α) → List (String × α)
  | [] => [(k, v)]
  | (k', v') :: rest => if k' = k then (k, v) :: rest else (k', v') :: assocSet k v rest

/-- Association-list lookup. -/
def assocGet (k : String) : List (String × α) → Option α
  | [] => none
  | (k', v) :: rest => if k' = k then some v else assocGet k rest

/-- Modelled from the spec: the durable store's state — stored records,
directory-hash markers keyed by path, and run records keyed by commit
identifier.  In-memory maps; the store's own I/O failures are outside the
model (the failures the claims exercise come from the collaborators). -/
structure StoreState where
  recs : List CVERecord
  dirHashes : List (String × String)
  runRecs : List (String × CommitUpdateRecord)
deriving DecidableEq

/-- Modelled from the spec: `st.GetDirectoryHash`; a never-written marker
reads as the empty string. -/
def StoreState.getDirHash (s : StoreState) (p : String) : String :=
  (assocGet p s.dirHashes).getD ""

/-- Modelled from the spec: `st.SetDirectoryHash`. -/
def StoreState.setDirHash (s : StoreState) (p v : String) : StoreState :=
  { s with dirHashes := assocSet p v s.dirHashes }

/-- Modelled from the spec: `st.CreateCommitUpdateRecord` and
`st.SetCommitUpdateRecord`, keyed by commit identifier. -/
def StoreState.setRunRec (s : StoreState) (ur : CommitUpdateRecord) : StoreState :=
  { s with runRecs := assocSet ur.CommitHash ur s.runRecs }

/-- The injected triage predicate (`triageFunc`): decoded record to
"needs action", may fail. -/
def TriageF := CVE → Except String Bool

/-- Error wrapping as `derrors.Wrap`: prepend the context. -/
def wrapErr (ctx : String) : Except String α → Except String α
  | .error e => .error (ctx ++ ": " ++ e)
  | .ok a => .ok a

/-- Needs-action computation of `handleCVE`: `needs := false`, overwritten
by the predicate only when the publication state is public. -/
def computeNeeds (needsIssue : TriageF) (cve : CVE) : Except String Bool :=
  if cve.State = StatePublic then needsIssue cve else .ok false

/-- Triage-state transition of `handleCVE`'s modification branch: the
`switch old.TriageState` applied to the copied record `mod`. -/
def transitionMod (mod : CVERecord) (oldState : String) (needs : Bool) :
    Except String CVERecord :=
  if oldState = TriageStateNoActionNeeded then
    .ok (if needs then { mod with TriageState := TriageStateNeedsIssue } else mod)
  else if oldState = TriageStateNeedsIssue then
    .ok (if ¬needs then { mod with TriageState := TriageStateNoActionNeeded } else mod)
  else if oldState = TriageStateIssueCreated ∨
      oldState = TriageStateUpdatedSinceIssueCreation then
    .ok { mod with TriageState := TriageStateUpdatedSinceIssueCreation,
                   TriageStateReason :=
                     "CVE changed; needs issue = " ++ (if needs then "true" else "false") }
  else .error ("unknown TriageState: \x22" ++ oldState ++ "\x22")

/-- Function `handleCVE` determines how to change the store for a single CVE: read
and decode the blob, compute the needs-action signal, then either create a
record (an add) or copy-and-transition the old one (a modification). -/
def handleCVE (blobCVE : GitHash → Except String CVE) (f : RepoFile)
    (old : Option CVERecord) (commitHash : GitHash) (needsIssue : TriageF)
    (recs : List CVERecord) : Except String (Bool × List CVERecord) :=
  wrapErr ("handleCVE(" ++ f.filename ++ ")") <|
    match blobCVE f.blobHash with
    | .error e => .error e
    | .ok cve =>
      let pathname := pathJoin f.dirPath f.filename
      match computeNeeds needsIssue cve with
      | .error e => .error e
      | .ok needs =>
        match old with
        | none =>
          let cr := NewCVERecord cve pathname f.blobHash.str
          let cr := { cr with
            CommitHash := commitHash.str,
            TriageState :=
              if needs then TriageStateNeedsIssue else TriageStateNoActionNeeded }
          .ok (true, setRec cr recs)
        | some o =>
          let mod := { o with Path := pathname, BlobHash := f.blobHash.str,
                              CVEState := cve.State, CommitHash := commitHash.str }
          match transitionMod mod o.TriageState needs with
          | .error e => .error e
          | .ok mod => .ok (false, setRec mod recs)

/-- Per-file step of `updateBatch`'s transaction body: skip when the stored
record's hash matches, otherwise delegate to `handleCVE` and count the
outcome.  The accumulator is (records, adds, mods). -/
def processOne (blobCVE : GitHash → Except String CVE) (commitHash : GitHash)
    (needsIssue : TriageF) (idToRecord : String → Option CVERecord)
    (f : RepoFile) (acc : List CVERecord × Nat × Nat) :
    Except String (List CVERecord × Nat × Nat) :=
  let id := idFromFilename f.filename
  let old := idToRecord id
  match old with
  | some o =>
    if o.BlobHash = f.blobHash.str then .ok acc
    else
      match handleCVE blobCVE f (some o) commitHash needsIssue acc.1 with
      | .error e => .error e
      | .ok (added, recs) =>
        .ok (recs, if added then acc.2.1 + 1 else acc.2.1,
             if added then acc.2.2 else acc.2.2 + 1)
  | none =>
    match handleCVE blobCVE f none commitHash needsIssue acc.1 with
    | .error e => .error e
    | .ok (added, recs) =>
      .ok (recs, if added then acc.2.1 + 1 else acc.2.1,
           if added then acc.2.2 else acc.2.2 + 1)

/-- Fold of `processOne` over the batch (the `for _, f := range batch` loop
of the transaction body). -/
def processFiles (blobCVE : GitHash → Except String CVE) (commitHash : GitHash)
    (needsIssue : TriageF) (idToRecord : String → Option CVERecord) :
    List RepoFile → List CVERecord × Nat × Nat →
    Except String (List CVERecord × Nat × Nat)
  | [], acc => .ok acc
  | f :: fs, acc =>
    match processOne blobCVE commitHash needsIssue idToRecord f acc with
    | .error e => .error e
    | .ok acc2 => processFiles blobCVE commitHash needsIssue idToRecord fs acc2

/-- Function `updateBatch` runs one atomic transaction over a batch: one range read
`[startID, endID]`, then the per-file loop.  An error means the transaction
committed nothing (the caller keeps its previous records). -/
def updateBatch (blobCVE : GitHash → Except String CVE) (commitHash : GitHash)
    (needsIssue : TriageF) (batch : List RepoFile) (recs : List CVERecord) :
    Except String (List CVERecord × Nat × Nat) :=
  match batch with
  | [] => .ok (recs, 0, 0)
  | f0 :: rest =>
    let startID := idFromFilename f0.filename
    let endID := idFromFilename ((f0 :: rest).getLast (by simp)).filename
    wrapErr ("updateBatch(" ++ startID ++ "-" ++ endID ++ ")") <|
      let crs := getCVERecords startID endID recs
      let idToRecord := buildIdMap crs
      processFiles blobCVE commitHash needsIssue idToRecord (f0 :: rest) (recs, 0, 0)

/-- Firestore's maximum writes per transaction. -/
def batchSize : Nat := 500

/-- Structurally recursive chunking (fuel is the list length), realizing the
`for i := 0; i < len(dirFiles); i += batchSize` slicing loop. -/
def chunksFuel (n : Nat) : Nat → List α → List (List α)
  | _, [] => []
  | 0, _ :: _ => []
  | fuel + 1, x :: xs => (x :: xs).take n :: chunksFuel n fuel ((x :: xs).drop n)

/-- The batches `dirFiles[i:j]` of one directory. -/
def chunks (n : Nat) (l : List α) : List (List α) := chunksFuel n l.length l

/-- The batch loop of `updateDirectory`: each batch is its own transaction,
so the records committed by earlier batches survive a later failure; the
counters in the accumulator are summed outside the transaction body. -/
def runBatches (blobCVE : GitHash → Except String CVE) (commitHash : GitHash)
    (needsIssue : TriageF) :
    List (List RepoFile) → List CVERecord → Nat × Nat × Nat →
    Except String (Nat × Nat × Nat) × List CVERecord
  | [], recs, acc => (.ok acc, recs)
  | b :: bs, recs, (p, a, m) =>
    match updateBatch blobCVE commitHash needsIssue b recs with
    | .error e => (.error e, recs)
    | .ok (recs2, ba, bm) =>
      runBatches blobCVE commitHash needsIssue bs recs2 (p + b.length, a + ba, m + bm)

/-- Function `updateDirectory`: the change-detection gate (skip on marker match,
else write the `"in progress"` sentinel), the batch loop, and the final
marker write.  On an error the Go function returns zero counts. -/
def updateDirectory (blobCVE : GitHash → Except String CVE) (commitHash : GitHash)
    (needsIssue : TriageF) (dirFiles : List RepoFile) (s : StoreState) :
    Except String (Nat × Nat × Nat) × StoreState :=
  match dirFiles with
  | [] => (.ok (0, 0, 0), s)
  | f0 :: _ =>
    let dirPath := f0.dirPath
    let dirHash := f0.treeHash.str
    let dbHash := s.getDirHash dirPath
    if dirHash = dbHash then (.ok (0, 0, 0), s)
    else
      match runBatches blobCVE commitHash needsIssue (chunks batchSize dirFiles)
          (s.setDirHash dirPath "in progress").recs (0, 0, 0) with
      | (.error e, recs2) =>
        (.error e, { s.setDirHash dirPath "in progress" with recs := recs2 })
      | (.ok (p, a, m), recs2) =>
        (.ok (p, a, m),
          ({ s.setDirHash dirPath "in progress" with recs := recs2 }).setDirHash
            dirPath dirHash)

/-- Directory loop of `doUpdate`.  On a directory error the source stores
the error text in the run record and persists it, then falls through and
keeps iterating — there is no early return. -/
def doUpdateLoop (blobCVE : GitHash → Except String CVE) (commitHash : GitHash)
    (needsIssue : TriageF) :
    List (List RepoFile) → CommitUpdateRecord → StoreState →
    CommitUpdateRecord × StoreState
  | [], ur, s => (ur, s)
  | dirFiles :: rest, ur, s =>
    match updateDirectory blobCVE commitHash needsIssue dirFiles s with
    | (.error e, s2) =>
      let ur2 := { ur with Error := e }
      let s3 := (s2.setRunRec ur2).setRunRec ur2
      doUpdateLoop blobCVE commitHash needsIssue rest ur2 s3
    | (.ok (p, a, m), s2) =>
      let ur2 := { ur with NumProcessed := ur.NumProcessed + p,
                           NumAdded := ur.NumAdded + a,
                           NumModified := ur.NumModified + m }
      let s3 := s2.setRunRec ur2
      doUpdateLoop blobCVE commitHash needsIssue rest ur2 s3

/-- The fresh run record created at the start of `doUpdate`. -/
def initialUR (startedAt : Nat) (commitHash : GitHash) (commitTime : Nat)
    (numTotal : Nat) : CommitUpdateRecord :=
  { StartedAt := startedAt, EndedAt := none, CommitHash := commitHash.str,
    CommitTime := commitTime, NumTotal := numTotal, NumProcessed := 0,
    NumAdded := 0, NumModified := 0, Error := "" }

/-- Function `doUpdate` compares the repo at the given commit with the state of the
DB and updates the DB to match.  The result mirrors Go's `(ur, err)` pair,
the outer `Option` models a panic escaping from the walk, and
`startedAt`/`endedAt` stand for the two `time.Now()` calls. -/
def doUpdate (repo : Repo) (commitHash : GitHash) (needsIssue : TriageF)
    (startedAt endedAt : Nat) (s : StoreState) :
    Option ((Option CommitUpdateRecord × Option String) × StoreState) :=
  match repo.commits commitHash with
  | none =>
    some ((none, some ("doUpdate(" ++ commitHash.str ++ "): object not found")), s)
  | some commit =>
    match repoCVEFiles commit with
    | none => none
    | some (.error e) =>
      some ((none, some ("doUpdate(" ++ commitHash.str ++ "): " ++ e)), s)
    | some (.ok files) =>
      match groupFilesByDirectory files with
      | .error e =>
        some ((none, some ("doUpdate(" ++ commitHash.str ++ "): " ++ e)), s)
      | .ok filesByDir =>
        match doUpdateLoop repo.blobCVE commitHash needsIssue filesByDir
            (initialUR startedAt commitHash commit.commitTime files.length)
            (s.setRunRec
              (initialUR startedAt commitHash commit.commitTime files.length)) with
        | (ur2, s2) =>
          some ((some { ur2 with EndedAt := some endedAt }, none),
            s2.setRunRec { ur2 with EndedAt := some endedAt })

/-! Concrete fixtures used by the closed evaluations below. -/

/-- Shorthand for a concrete hash. -/
def mkHash (n : Nat) : GitHash := ⟨[n]⟩

/-- An empty store. -/
def store0 : StoreState := { recs := [], dirHashes := [], runRecs := [] }

/-- Three directories `a`, `b`, `c`, one CVE file each; the blob of
directory `b` is made to fail decoding. -/
def c1Tree : GitEntries :=
  .dir "a" (mkHash 10) (.blob "CVE-2014-0001.json" (mkHash 1) .nil)
    (.dir "b" (mkHash 11) (.blob "CVE-2014-0002.json" (mkHash 2) .nil)
      (.dir "c" (mkHash 12) (.blob "CVE-2014-0003.json" (mkHash 3) .nil) .nil))

/-- Commit for the three-directory scenario. -/
def c1Commit : Commit := { commitTime := 5, treeHash := mkHash 100, tree := c1Tree }

/-- Repo for the three-directory scenario: blob 2 (directory `b`) fails. -/
def c1Repo : Repo :=
  { commits := fun h => if h = mkHash 99 then some c1Commit else none,
    blobCVE := fun h =>
      if h = mkHash 1 then .ok { ID := "CVE-2014-0001", State := "PUBLIC" }
      else if h = mkHash 2 then .error "boom"
      else if h = mkHash 3 then .ok { ID := "CVE-2014-0003", State := "RESERVED" }
      else .error "no blob" }

/-- The run of `doUpdate` on the three-directory scenario, with the failure
injected in directory 2 of 3. -/
def c1Run : (Option CommitUpdateRecord × Option String) × StoreState :=
  (doUpdate c1Repo (mkHash 99) (fun _ => .ok true) 7 8 store0).getD
    ((none, none), store0)

/-- A one-blob reader for the `handleCVE`-level scenarios. -/
def oneBlob (cve : CVE) : GitHash → Except String CVE := fun h =>
  if h = mkHash 1 then .ok cve else .error "no blob"

/-- A changed file for the `handleCVE`-level scenarios. -/
def fChanged : RepoFile :=
  { dirPath := "a", filename := "CVE-2014-0001.json", treeHash := mkHash 10,
    blobHash := mkHash 1, year := 2014, number := 1 }

/-- A public CVE matching `fChanged`. -/
def cvePub : CVE := { ID := "CVE-2014-0001", State := "PUBLIC" }

/-- A reserved (non-public) CVE matching `fChanged`. -/
def cveRes : CVE := { ID := "CVE-2014-0001", State := "RESERVED" }

/-- An existing stored record for `fChanged` with a stale hash and an
already-created issue. -/
def oldIssueCreated : CVERecord :=
  { ID := "CVE-2014-0001", Path := "old/CVE-2014-0001.json", BlobHash := "stale",
    CVEState := "PUBLIC", CommitHash := "oldcommit",
    TriageState := "IssueCreated", TriageStateReason := "" }

instance : IsTrans RepoFile fileLEP :=
  ⟨by
    intro a b c hab hbc
    unfold fileLEP fileLE at *
    split_ifs at * <;> simp_all <;> omega⟩

instance : IsTotal RepoFile fileLEP :=
  ⟨by
    intro a b
    unfold fileLEP fileLE
    split_ifs <;> simp_all <;> omega⟩

/-- Two files in one directory whose numeric and lexicographic orders
disagree, listed with the lexicographically smaller one first. -/
def c7Tree : GitEntries :=
  .blob "CVE-2014-10000.json" (mkHash 2) (.blob "CVE-2014-9999.json" (mkHash 3) .nil)

/-- Commit for the ordering scenario. -/
def c7Commit : Commit := { commitTime := 0, treeHash := mkHash 20, tree := c7Tree }

/-- The numerically smaller file of the ordering scenario. -/
def c7f9999 : RepoFile :=
  { dirPath := "", filename := "CVE-2014-9999.json", treeHash := mkHash 20,
    blobHash := mkHash 3, year := 2014, number := 9999 }

/-- The numerically larger file of the ordering scenario. -/
def c7f10000 : RepoFile :=
  { dirPath := "", filename := "CVE-2014-10000.json", treeHash := mkHash 20,
    blobHash := mkHash 2, year := 2014, number := 10000 }

/-- A one-file directory whose batch fails (its blob does not decode),
for exercising the sentinel protocol. -/
def c5FileBad : RepoFile :=
  { dirPath := "b", filename := "CVE-2014-0002.json", treeHash := mkHash 11,
    blobHash := mkHash 2, year := 2014, number := 2 }

/-- A blob reader that fails on every blob. -/
def blobNone : GitHash → Except String CVE := fun _ => .error "boom"

/-- Statement-side predicate: every accepted leaf name in the tree has a
length other than 13 (the one length at which the sequence slice's bounds
can invert). -/
def namesOK : GitEntries → Bool
  | .nil => true
  | .dir _ _ sub rest => namesOK sub && namesOK rest
  | .blob nm _ rest => (!(isCVEFilename nm) || nm.data.length != 13) && namesOK rest

/-- The file produced by walking the accepted name with a negative epoch. -/
def c9NegFile : RepoFile :=
  { dirPath := "", filename := "CVE--12345.json", treeHash := mkHash 30,
    blobHash := mkHash 4, year := -123, number := 5 }

/-- Batch file with a 4-digit sequence, numerically below 10001 but
lexicographically above it. -/
def c2f9999 : RepoFile :=
  { dirPath := "2014", filename := "CVE-2014-9999.json", treeHash := mkHash 40,
    blobHash := mkHash 41, year := 2014, number := 9999 }

/-- Batch file with a 5-digit sequence. -/
def c2f10001 : RepoFile :=
  { dirPath := "2014", filename := "CVE-2014-10001.json", treeHash := mkHash 40,
    blobHash := mkHash 42, year := 2014, number := 10001 }

/-- A stored record for `c2f10001` whose content hash is identical to the
file's, so the file carries no change. -/
def c2rec10001 : CVERecord :=
  { ID := "CVE-2014-10001", Path := "2014/CVE-2014-10001.json",
    BlobHash := (mkHash 42).str, CVEState := "PUBLIC", CommitHash := "oldcommit",
    TriageState := "IssueCreated", TriageStateReason := "" }

/-- Blob reader for the width-boundary batch. -/
def c2Blob : GitHash → Except String CVE := fun h =>
  if h = mkHash 41 then .ok { ID := "CVE-2014-9999", State := "PUBLIC" }
  else if h = mkHash 42 then .ok { ID := "CVE-2014-10001", State := "PUBLIC" }
  else .error "no blob"

/-- A probe predicate that fails loudly if consulted for the unchanged
record. -/
def c2Probe : TriageF := fun c =>
  if c.ID = "CVE-2014-10001" then .error "predicate invoked" else .ok false

/-- Same-width batch files for the positive direction. -/
def c2fA : RepoFile :=
  { dirPath := "2014", filename := "CVE-2014-0001.json", treeHash := mkHash 40,
    blobHash := mkHash 43, year := 2014, number := 1 }

/-- Second same-width batch file. -/
def c2fB : RepoFile :=
  { dirPath := "2014", filename := "CVE-2014-0002.json", treeHash := mkHash 40,
    blobHash := mkHash 44, year := 2014, number := 2 }

/-- Stored record for `c2fA` with the identical content hash. -/
def c2rA : CVERecord :=
  { ID := "CVE-2014-0001", Path := "2014/CVE-2014-0001.json",
    BlobHash := (mkHash 43).str, CVEState := "PUBLIC", CommitHash := "oldcommit",
    TriageState := "NeedsIssue", TriageStateReason := "" }

/-- The width-boundary batch run under a predicate that never requests an
issue. -/
def c2Run2 : Except String (List CVERecord × Nat × Nat) :=
  updateBatch c2Blob (mkHash 99) (fun _ => .ok false) [c2f9999, c2f10001]
    [c2rec10001]

/-- Statement-side predicate: some directory path appears in two
non-adjacent runs of the file list — two files of one directory separated
by a file of another. -/
def NonAdjacentDup (files : List RepoFile) : Prop :=
  ∃ (l1 l2 l3 l4 : List RepoFile) (a b c : RepoFile),
    files = l1 ++ a :: (l2 ++ b :: (l3 ++ c :: l4)) ∧
    a.dirPath = c.dirPath ∧ b.dirPath ≠ a.dirPath

/-- Noncontiguous scenario, file 1 of directory `a`. -/
def c6fa1 : RepoFile :=
  { dirPath := "a", filename := "CVE-2014-0001.json", treeHash := mkHash 50,
    blobHash := mkHash 51, year := 2014, number := 1 }

/-- Noncontiguous scenario, file 2 of directory `b`. -/
def c6fb2 : RepoFile :=
  { dirPath := "b", filename := "CVE-2014-0002.json", treeHash := mkHash 52,
    blobHash := mkHash 53, year := 2014, number := 2 }

/-- Noncontiguous scenario, file 3, back in directory `a`. -/
def c6fa3 : RepoFile :=
  { dirPath := "a", filename := "CVE-2014-0003.json", treeHash := mkHash 50,
    blobHash := mkHash 54, year := 2014, number := 3 }

/-- The sorted-but-noncontiguous file list `a, b, a`. -/
def c6Files : List RepoFile := [c6fa1, c6fb2, c6fa3]

/-- Tree realizing `c6Files`: directory `a` holds sequences 1 and 3,
directory `b` holds sequence 2, so the sorted order interleaves them. -/
def c6Tree : GitEntries :=
  .dir "a" (mkHash 50)
    (.blob "CVE-2014-0001.json" (mkHash 51)
      (.blob "CVE-2014-0003.json" (mkHash 54) .nil))
    (.dir "b" (mkHash 52) (.blob "CVE-2014-0002.json" (mkHash 53) .nil) .nil)

/-- Commit of the noncontiguous scenario. -/
def c6Commit : Commit := { commitTime := 0, treeHash := mkHash 55, tree := c6Tree }

/-- Repo of the noncontiguous scenario. -/
def c6Repo : Repo :=
  { commits := fun h => if h = mkHash 56 then some c6Commit else none,
    blobCVE := fun _ => .error "unused" }

/-- Clean one-directory commit for the idempotence scenario. -/
def c4Commit : Commit :=
  { commitTime := 9,
    treeHash := mkHash 60,
    tree := .dir "a" (mkHash 61)
      (.blob "CVE-2014-0001.json" (mkHash 62) .nil) .nil }

/-- Repo of the idempotence scenario; every blob decodes. -/
def c4Repo : Repo :=
  { commits := fun h => if h = mkHash 63 then some c4Commit else none,
    blobCVE := fun h =>
      if h = mkHash 62 then .ok { ID := "CVE-2014-0001", State := "PUBLIC" }
      else .error "no blob" }

/-- First run of the idempotence scenario. -/
def c4Out : (Option CommitUpdateRecord × Option String) × StoreState :=
  (doUpdate c4Repo (mkHash 63) (fun _ => .ok true) 1 2 store0).getD
    ((none, none), store0)

/-- Run record produced by the first idempotence run. -/
def c4UR1 : CommitUpdateRecord :=
  c4Out.1.1.getD (initialUR 0 (mkHash 0) 0 0)

/-- Store state after the first idempotence run. -/
def c4S1 : StoreState := c4Out.2

end VulnWorker

namespace VulnWorker

/-- C1: the spec says a directory failure stops processing of all later
directories, leaving their records, markers and counts untouched, and that
the returned record carries only directory 1's counts beside the error.
The code records the error but falls through the loop without returning:
in the 3-directory scenario with the failure in directory 2, directory 3
IS processed — its record is created, its marker is set to the real hash,
and the counts include it (2 processed / 2 added, not 1 / 1) — and the
function returns a nil error alongside the error-carrying run record. -/
theorem c1_doUpdate_continues_after_directory_error :
    (doUpdate c1Repo (mkHash 99) (fun _ => .ok true) 7 8 store0).isSome = true ∧
    c1Run.1.2 = none ∧
    c1Run.1.1.map (fun ur => ur.Error) =
      some "updateBatch(CVE-2014-0002-CVE-2014-0002): handleCVE(CVE-2014-0002.json): boom" ∧
    c1Run.1.1.map (fun ur => ur.EndedAt) = some (some 8) ∧
    c1Run.1.1.map (fun ur => ur.NumProcessed) = some 2 ∧
    c1Run.1.1.map (fun ur => ur.NumAdded) = some 2 ∧
    c1Run.2.getDirHash "b" = "in progress" ∧
    c1Run.2.getDirHash "c" = (mkHash 12).str ∧
    (lookupRec "CVE-2014-0003" c1Run.2.recs).isSome = true := by
  decide

/-- C3: for a changed file with an existing stored record, `handleCVE`
transitions the triage state exactly per the table keyed on
(old state, needs-action): NoActionNeeded → NeedsIssue iff needs,
NeedsIssue → NoActionNeeded iff not needs, IssueCreated and
UpdatedSinceIssueCreation both → UpdatedSinceIssueCreation with the reason
stamped for either value of needs, any other old state is a fatal error,
and every non-error outcome is reported as a modification (`false`),
never an add. -/
theorem c3_handleCVE_transition_table
    (blob : GitHash → Except String CVE) (f : RepoFile) (o : CVERecord)
    (ch : GitHash) (nf : TriageF) (recs : List CVERecord) (cve : CVE) (needs : Bool)
    (hblob : blob f.blobHash = .ok cve)
    (hneeds : computeNeeds nf cve = .ok needs) :
    let mod : CVERecord :=
      { o with Path := pathJoin f.dirPath f.filename, BlobHash := f.blobHash.str,
               CVEState := cve.State, CommitHash := ch.str }
    (o.TriageState = TriageStateNoActionNeeded →
      handleCVE blob f (some o) ch nf recs =
        .ok (false, setRec (if needs then { mod with TriageState := TriageStateNeedsIssue }
                            else mod) recs)) ∧
    (o.TriageState = TriageStateNeedsIssue →
      handleCVE blob f (some o) ch nf recs =
        .ok (false, setRec (if needs then mod
                            else { mod with TriageState := TriageStateNoActionNeeded }) recs)) ∧
    ((o.TriageState = TriageStateIssueCreated ∨
        o.TriageState = TriageStateUpdatedSinceIssueCreation) →
      handleCVE blob f (some o) ch nf recs =
        .ok (false, setRec
          { mod with TriageState := TriageStateUpdatedSinceIssueCreation,
                     TriageStateReason := "CVE changed; needs issue = " ++
                       (if needs then "true" else "false") } recs)) ∧
    (o.TriageState ≠ TriageStateNoActionNeeded →
      o.TriageState ≠ TriageStateNeedsIssue →
      o.TriageState ≠ TriageStateIssueCreated →
      o.TriageState ≠ TriageStateUpdatedSinceIssueCreation →
      ∃ e, handleCVE blob f (some o) ch nf recs = .error e) := by
  intro mod
  refine ⟨fun h1 => ?_, fun h2 => ?_, fun h3 => ?_, fun h4 h5 h6 h7 => ?_⟩
  · simp only [handleCVE, hblob, hneeds, transitionMod, h1, wrapErr]
    simp [TriageStateNoActionNeeded, mod, h1]
  · simp only [handleCVE, hblob, hneeds, transitionMod, h2, wrapErr]
    cases needs <;>
      simp [TriageStateNeedsIssue, TriageStateNoActionNeeded, mod, h2]
  · rcases h3 with h3 | h3 <;>
    · simp only [handleCVE, hblob, hneeds, transitionMod, h3, wrapErr]
      simp [TriageStateIssueCreated, TriageStateUpdatedSinceIssueCreation,
        TriageStateNoActionNeeded, TriageStateNeedsIssue, mod]
  · simp only [handleCVE, hblob, hneeds, transitionMod, wrapErr]
    rw [if_neg h4, if_neg h5, if_neg (by simp [h6, h7])]
    exact ⟨_, rfl⟩

/-- C8: for a record whose publication state is not public, the computed
needs-action signal is `false` for every predicate, and `handleCVE`'s
entire outcome is identical for any two triage predicates — so the
predicate is never consulted. -/
theorem c8_nonpublic_skips_triage
    (blob : GitHash → Except String CVE) (f : RepoFile) (old : Option CVERecord)
    (ch : GitHash) (recs : List CVERecord) (cve : CVE)
    (hblob : blob f.blobHash = .ok cve) (hstate : cve.State ≠ StatePublic) :
    (∀ nf : TriageF, computeNeeds nf cve = .ok false) ∧
    (∀ nf1 nf2 : TriageF,
      handleCVE blob f old ch nf1 recs = handleCVE blob f old ch nf2 recs) := by
  have hcn : ∀ nf : TriageF, computeNeeds nf cve = .ok false := by
    intro nf
    simp [computeNeeds, if_neg hstate]
  refine ⟨hcn, fun nf1 nf2 => ?_⟩
  simp only [handleCVE, hblob, hcn nf1, hcn nf2]

/-- Witness for C3: concrete changed public record whose stored state is
`IssueCreated`; the result is a modification to
`UpdatedSinceIssueCreation` with the reason stamped. -/
theorem c3_witness :
    handleCVE (oneBlob cvePub) fChanged (some oldIssueCreated) (mkHash 99)
        (fun _ => .ok true) [oldIssueCreated] =
      .ok (false, setRec
        { oldIssueCreated with
          Path := pathJoin fChanged.dirPath fChanged.filename,
          BlobHash := fChanged.blobHash.str, CVEState := cvePub.State,
          CommitHash := (mkHash 99).str,
          TriageState := TriageStateUpdatedSinceIssueCreation,
          TriageStateReason := "CVE changed; needs issue = true" }
        [oldIssueCreated]) := by
  have h := c3_handleCVE_transition_table (oneBlob cvePub) fChanged oldIssueCreated
    (mkHash 99) (fun _ => .ok true) [oldIssueCreated] cvePub true
    (by decide) (by decide)
  simpa using h.2.2.1 (Or.inl (by decide))

/-- Witness for C8: concrete reserved record; an always-true predicate and
an always-erroring predicate produce the same outcome, and the computed
signal is `false`. -/
theorem c8_witness :
    computeNeeds (fun _ => .error "touched") cveRes = .ok false ∧
    handleCVE (oneBlob cveRes) fChanged (some oldIssueCreated) (mkHash 99)
        (fun _ => .error "touched") [oldIssueCreated] =
      handleCVE (oneBlob cveRes) fChanged (some oldIssueCreated) (mkHash 99)
        (fun _ => .ok true) [oldIssueCreated] := by
  have h := c8_nonpublic_skips_triage (oneBlob cveRes) fChanged (some oldIssueCreated)
    (mkHash 99) [oldIssueCreated] cveRes (by decide) (by decide)
  exact ⟨h.1 _, h.2 _ _⟩

theorem assocGet_set_self (k : String) (v : α) (l : List (String × α)) :
    assocGet k (assocSet k v l) = some v := by
  induction l with
  | nil => simp [assocSet, assocGet]
  | cons p rest ih =>
    by_cases h : p.1 = k <;> simp [assocSet, assocGet, h, ih]

theorem assocGet_set_other (k k' : String) (v : α) (l : List (String × α))
    (hne : k' ≠ k) : assocGet k' (assocSet k v l) = assocGet k' l := by
  induction l with
  | nil => simp [assocSet, assocGet, Ne.symm hne]
  | cons p rest ih =>
    by_cases h : p.1 = k
    · simp [assocSet, assocGet, h, Ne.symm hne]
    · by_cases h2 : p.1 = k' <;> simp [assocSet, assocGet, h, h2, hne, ih]

theorem hash_str_data_length (h : GitHash) :
    h.str.data.length = 2 * h.bytes.length := by
  show ((h.bytes.map hexByte).flatten).length = 2 * h.bytes.length
  induction h.bytes with
  | nil => simp
  | cons b rest ih => simp [hexByte, ih] ; omega

theorem hash_str_ne_sentinel (h : GitHash) : h.str ≠ "in progress" := by
  intro he
  have hd : h.str.data.length = ("in progress" : String).data.length := by rw [he]
  rw [hash_str_data_length] at hd
  simp at hd
  omega

/-- C5: when the stored marker differs from the directory's current hash,
a failing `updateDirectory` leaves the marker equal to the `"in progress"`
sentinel written before the batches ran, a successful one leaves it equal
to the real directory hash (written only after every batch committed), and
the sentinel can never equal the rendering of any real content-hash. -/
theorem c5_sentinel_protocol
    (blob : GitHash → Except String CVE) (ch : GitHash) (nf : TriageF)
    (f0 : RepoFile) (rest : List RepoFile) (s : StoreState)
    (hmis : ¬ f0.treeHash.str = s.getDirHash f0.dirPath) :
    (∀ e s', updateDirectory blob ch nf (f0 :: rest) s = (.error e, s') →
      s'.getDirHash f0.dirPath = "in progress") ∧
    (∀ p a m s', updateDirectory blob ch nf (f0 :: rest) s = (.ok (p, a, m), s') →
      s'.getDirHash f0.dirPath = f0.treeHash.str) ∧
    (∀ h : GitHash, h.str ≠ "in progress") := by
  refine ⟨?_, ?_, hash_str_ne_sentinel⟩ <;>
  · intros
    next heq =>
    rw [updateDirectory, if_neg hmis] at heq
    rcases hrb : runBatches blob ch nf (chunks batchSize (f0 :: rest))
        (s.setDirHash f0.dirPath "in progress").recs (0, 0, 0) with ⟨res, recs2⟩
    rcases res with e | pam <;>
      rw [hrb] at heq <;> simp at heq <;>
      first
      | (obtain ⟨-, rfl⟩ := heq
         simp [StoreState.getDirHash, StoreState.setDirHash, assocGet_set_self])
      | (obtain ⟨-, -, -, -, rfl⟩ := heq
         simp [StoreState.getDirHash, StoreState.setDirHash, assocGet_set_self])

/-- Witness for C5: a concrete one-file directory whose single batch fails;
the marker ends as the sentinel. -/
theorem c5_witness :
    ¬ c5FileBad.treeHash.str = store0.getDirHash c5FileBad.dirPath ∧
    ∀ e s', updateDirectory blobNone (mkHash 99) (fun _ => .ok true)
        [c5FileBad] store0 = (.error e, s') →
      s'.getDirHash c5FileBad.dirPath = "in progress" :=
  ⟨by decide,
   (c5_sentinel_protocol blobNone (mkHash 99) (fun _ => .ok true) c5FileBad []
      store0 (by decide)).1⟩

theorem fileLEP_iff (f g : RepoFile) :
    fileLEP f g ↔ f.year < g.year ∨ (f.year = g.year ∧ f.number ≤ g.number) := by
  unfold fileLEP fileLE
  split_ifs with hy <;> simp_all <;> omega

/-- C7: `repoCVEFiles` returns the files in ascending `(epoch, sequence)`
order, compared as integers — every pair of returned files, in particular
every pair whose numeric and lexicographic orders disagree, is ordered
numerically. -/
theorem c7_repoCVEFiles_numeric_order (commit : Commit) (files : List RepoFile)
    (h : repoCVEFiles commit = some (.ok files)) :
    files.Pairwise
      (fun f g => f.year < g.year ∨ (f.year = g.year ∧ f.number ≤ g.number)) := by
  rw [repoCVEFiles] at h
  rcases hw : walkFiles commit.treeHash commit.tree "" [] with - | we
  · rw [hw] at h ; exact absurd h (by simp)
  · rcases we with e | fs
    · rw [hw] at h ; exact absurd h (by simp)
    · rw [hw] at h
      simp only [Option.some.injEq, Except.ok.injEq] at h
      subst h
      exact (List.sorted_insertionSort fileLEP fs).imp (fun hle => (fileLEP_iff _ _).mp hle)

/-- Witness for C7: sequence 9999 is listed after 10000 in the tree and is
lexicographically larger, yet comes first in the returned order. -/
theorem c7_witness :
    repoCVEFiles c7Commit = some (.ok [c7f9999, c7f10000]) ∧
    ([c7f9999, c7f10000] : List RepoFile).Pairwise
      (fun f g => f.year < g.year ∨ (f.year = g.year ∧ f.number ≤ g.number)) :=
  ⟨by decide, c7_repoCVEFiles_numeric_order c7Commit [c7f9999, c7f10000] (by decide)⟩

theorem extFromRev_dot (r : List Char) :
    ∀ acc out, extFromRev r acc = out → out ≠ [] →
      ∃ pre r₂, r = pre ++ '.' :: r₂ ∧ out = '.' :: (pre.reverse ++ acc) ∧
        '.' ∉ pre := by
  induction r with
  | nil => intro acc out h hne ; exact absurd h.symm hne
  | cons c rest ih =>
    intro acc out h hne
    by_cases hc1 : c = '/'
    · rw [extFromRev, if_pos hc1] at h
      exact absurd h.symm hne
    · by_cases hc2 : c = '.'
      · rw [extFromRev, if_neg hc1, if_pos hc2] at h
        exact ⟨[], rest, by simp [hc2], by simp [← h], by simp⟩
      · rw [extFromRev, if_neg hc1, if_neg hc2] at h
        obtain ⟨pre, r₂, hr, hout, hnd⟩ := ih (c :: acc) out h hne
        exact ⟨c :: pre, r₂, by simp [hr], by simp [hout],
          by simp [hnd, Ne.symm hc2]⟩

theorem isCVE_shape (nm : String) (h : isCVEFilename nm = true) :
    nm.data.take 4 = ['C', 'V', 'E', '-'] ∧
      ∃ front, nm.data = front ++ ['.', 'j', 's', 'o', 'n'] := by
  rw [isCVEFilename, Bool.and_eq_true] at h
  obtain ⟨h1, h2⟩ := h
  constructor
  · rw [strHasPre, decide_eq_true_eq] at h1
    exact h1
  · rw [goPathExt] at h2
    have hd : extFromRev nm.data.reverse [] = ('.' :: ['j', 's', 'o', 'n']) := by
      have := congrArg String.data (of_decide_eq_true h2)
      simpa using this
    obtain ⟨pre, r₂, hr, hout, -⟩ := extFromRev_dot nm.data.reverse [] _ hd (by simp)
    have hpre : pre = ['n', 'o', 's', 'j'] := by
      have hrev : pre.reverse = ['j', 's', 'o', 'n'] := by simpa using hout.symm
      calc pre = pre.reverse.reverse := by simp
        _ = ['n', 'o', 's', 'j'] := by rw [hrev] ; rfl
    refine ⟨r₂.reverse, ?_⟩
    have : nm.data.reverse.reverse = (pre ++ '.' :: r₂).reverse := by rw [hr]
    simpa [hpre] using this

theorem front_len_ge (nm : String) (front : List Char)
    (h1 : nm.data.take 4 = ['C', 'V', 'E', '-'])
    (h2 : nm.data = front ++ ['.', 'j', 's', 'o', 'n']) : 4 ≤ front.length := by
  by_contra hlt
  push_neg at hlt
  have hget : nm.data.get? front.length = some '.' := by
    rw [h2, List.get?_append_right (le_refl _)]
    simp
  have hget2 : nm.data.get? front.length = (['C', 'V', 'E', '-'] : List Char).get? front.length := by
    rw [← h1, List.get?_take (by omega)]
  rw [hget] at hget2
  interval_cases h : front.length <;> simp_all

theorem goAtoiDigits_ok_digits (s : String) (neg : Bool) (ds : List Char)
    (v : Int) (h : goAtoiDigits s neg ds = .ok v) :
    ds.all Char.isDigit = true := by
  rw [goAtoiDigits] at h
  split at h
  · exact absurd h (by simp)
  · split at h
    · assumption
    · exact absurd h (by simp)

theorem atoi_ok_no_dot (s : String) (v : Int) (h : goAtoi s = .ok v) :
    '.' ∉ s.data := by
  intro hmem
  have hdig : ∀ ds : List Char, ds.all Char.isDigit = true → '.' ∉ ds := by
    intro ds hall hm
    have := List.all_eq_true.mp hall _ hm
    simp [Char.isDigit] at this
  rw [goAtoi] at h
  rcases hd : s.data with - | ⟨c, cs⟩
  · rw [hd] at hmem ; simp at hmem
  · rw [hd] at h hmem
    rw [goAtoiData] at h
    rw [List.mem_cons] at hmem
    by_cases hc1 : c = '-'
    · rw [if_pos hc1] at h
      rcases hmem with hmem | hmem
      · rw [hc1] at hmem ; simp at hmem
      · exact hdig cs (goAtoiDigits_ok_digits _ _ _ _ h) hmem
    · by_cases hc2 : c = '+'
      · rw [if_neg hc1, if_pos hc2] at h
        rcases hmem with hmem | hmem
        · rw [hc2] at hmem ; simp at hmem
        · exact hdig cs (goAtoiDigits_ok_digits _ _ _ _ h) hmem
      · rw [if_neg hc1, if_neg hc2] at h
        exact hdig (c :: cs) (goAtoiDigits_ok_digits _ _ _ _ h)
          (List.mem_cons.mpr hmem)

theorem parse_no_panic (nm : String) (hcve : isCVEFilename nm = true)
    (hlen : nm.data.length ≠ 13) : parseCVEName nm ≠ none := by
  obtain ⟨htake, front, hfront⟩ := isCVE_shape nm hcve
  have h4 : 4 ≤ front.length := front_len_ge nm front htake hfront
  have hlen5 : nm.data.length = front.length + 5 := by rw [hfront] ; simp
  have hs1 : goSlice nm 4 8 = some ⟨(nm.data.drop 4).take 4⟩ := by
    rw [goSlice, if_pos ⟨by omega, by omega⟩]
  simp only [parseCVEName, hs1]
  rcases ha : goAtoi ⟨(nm.data.drop 4).take 4⟩ with e | v
  · simp [ha]
  · have hnodot := atoi_ok_no_dot _ _ ha
    have h8 : 8 ≤ front.length := by
      by_contra hlt
      push_neg at hlt
      apply hnodot
      show '.' ∈ (nm.data.drop 4).take 4
      rw [hfront, List.drop_append_eq_append_drop,
        List.take_append_eq_append_take]
      refine List.mem_append_right _ ?_
      have hd0 : (4 : Nat) - front.length = 0 := by omega
      rw [hd0, List.drop_zero]
      obtain ⟨k, hk⟩ : ∃ k, 4 - (front.drop 4).length = k + 1 :=
        ⟨4 - (front.drop 4).length - 1, by simp ; omega⟩
      rw [hk]
      simp
    have h9 : 9 ≤ front.length := by omega
    have hs2 : goSlice nm 9 (nm.data.length - 5) =
        some ⟨(nm.data.drop 9).take (nm.data.length - 5 - 9)⟩ := by
      rw [goSlice, if_pos ⟨by omega, by omega⟩]
    simp only [ha, hs2]
    rcases han : goAtoi ⟨(nm.data.drop 9).take (nm.data.length - 5 - 9)⟩ with e | v2 <;>
      simp [han]

/-- C10 counterexample: the accepted length-13 name `"CVE-1234.json"` makes
the sequence slice `name[9 : len-5] = name[9:8]` invert its bounds: the
walk panics (`none`) instead of returning a list or an error. -/
theorem c10_counterexample :
    isCVEFilename "CVE-1234.json" = true ∧
    walkFiles (mkHash 31) (.blob "CVE-1234.json" (mkHash 5) .nil) "" [] = none := by
  decide

/-- C10 (amended): for every tree whose accepted leaf names all have a
length other than 13, the fixed slice positions stay within bounds — the
epoch slice's parse fails before the sequence slice whenever the name is
shorter than 14 — and `walkFiles` returns a file list or an error, never
a panic.  (At length exactly 13 with a numeric epoch part, such as
`"CVE-1234.json"`, the walk panics.) -/
theorem c10_walk_no_panic (th : GitHash) (es : GitEntries) (dp : String)
    (fs : List RepoFile) :
    namesOK es = true → walkFiles th es dp fs ≠ none := by
  induction es generalizing th dp fs with
  | nil => intro _ ; simp [walkFiles]
  | dir nm h sub rest ihsub ihrest =>
    intro hok
    rw [namesOK, Bool.and_eq_true] at hok
    rw [walkFiles]
    rcases hw : walkFiles h sub (pathJoin dp nm) fs with - | we
    · exact absurd hw (ihsub _ _ _ hok.1)
    · rcases we with e | fs2
      · simp
      · exact ihrest _ _ _ hok.2
  | blob nm h rest ihrest =>
    intro hok
    rw [namesOK, Bool.and_eq_true] at hok
    rw [walkFiles]
    by_cases hcve : isCVEFilename nm = true
    · rw [if_pos hcve]
      have hlen : nm.data.length ≠ 13 := by
        have := hok.1
        rw [hcve] at this
        simpa using this
      rcases hp : parseCVEName nm with - | pe
      · exact absurd hp (parse_no_panic nm hcve hlen)
      · rcases pe with e | yn
        · simp
        · rcases yn with ⟨y, n⟩
          exact ihrest _ _ _ hok.2
    · rw [if_neg hcve]
      exact ihrest _ _ _ hok.2

/-- Witness for C10 (amended): a concrete tree of accepted names away from
length 13; the walk does not panic. -/
theorem c10_witness :
    namesOK c7Tree = true ∧ walkFiles (mkHash 20) c7Tree "" [] ≠ none :=
  ⟨by decide, c10_walk_no_panic (mkHash 20) c7Tree "" [] (by decide)⟩

/-- C9 counterexample: in `"CVE--12345.json"` the epoch part `"-123"` does
not parse as a non-negative integer (Atoi accepts the sign and yields
`-123`), yet the walk succeeds with the file instead of failing. -/
theorem c9_counterexample :
    goAtoi "-123" = .ok (-123) ∧
    isCVEFilename "CVE--12345.json" = true ∧
    walkFiles (mkHash 30) (.blob "CVE--12345.json" (mkHash 4) .nil) "" [] =
      some (.ok [c9NegFile]) := by
  decide

/-- C9 (amended): whenever the epoch or sequence part of an accepted leaf
name exists (its slice is in bounds) but does not parse as an integer
under Go's signed 64-bit `Atoi`, the whole walk fails with an error rather
than skipping the file.  (A part parsing to a negative integer, such as
epoch `"-123"`, is accepted with the negative value rather than failing.) -/
theorem c9_walk_fails_on_unparsable (th : GitHash) (nm : String) (bh : GitHash)
    (rest : GitEntries) (dp : String) (fs : List RepoFile) (ys ns : String)
    (hcve : isCVEFilename nm = true)
    (hy : goSlice nm 4 8 = some ys)
    (hn : goSlice nm 9 (nm.data.length - 5) = some ns)
    (hbad : (∃ e, goAtoi ys = .error e) ∨ (∃ e, goAtoi ns = .error e)) :
    ∃ e, walkFiles th (.blob nm bh rest) dp fs = some (.error e) := by
  rw [walkFiles, if_pos hcve]
  simp only [parseCVEName, hy]
  rcases hay : goAtoi ys with e | v
  · exact ⟨e, by simp [hay]⟩
  · simp only [hay, hn]
    rcases han : goAtoi ns with e | v2
    · exact ⟨e, by simp [han]⟩
    · rcases hbad with ⟨e, hbe⟩ | ⟨e, hbe⟩
      · rw [hay] at hbe ; exact absurd hbe (by simp)
      · rw [han] at hbe ; exact absurd hbe (by simp)

/-- Witness for C9 (amended): `"CVE-20a4-0001.json"` has an unparsable
epoch part; the walk fails with an error. -/
theorem c9_witness :
    isCVEFilename "CVE-20a4-0001.json" = true ∧
    goSlice "CVE-20a4-0001.json" 4 8 = some "20a4" ∧
    (∃ e, goAtoi "20a4" = .error e) ∧
    ∃ e, walkFiles (mkHash 30) (.blob "CVE-20a4-0001.json" (mkHash 4) .nil)
        "" [] = some (.error e) :=
  ⟨by decide, by decide, ⟨"strconv.Atoi: parsing 20a4: invalid syntax", by decide⟩,
   c9_walk_fails_on_unparsable (mkHash 30) "CVE-20a4-0001.json" (mkHash 4) .nil
     "" [] "20a4" "0001" (by decide) (by decide) (by decide)
     (Or.inl ⟨"strconv.Atoi: parsing 20a4: invalid syntax", by decide⟩)⟩

theorem charsLe_refl (l : List Char) : charsLe l l = true := by
  induction l with
  | nil => rfl
  | cons c cs ih => simp [charsLe, ih]

theorem strLe_refl (s : String) : strLe s s = true := charsLe_refl s.data

theorem pairwise_head_rel {R : α → α → Prop} (h x : α) (t : List α)
    (hp : (h :: t).Pairwise R) (hrefl : ∀ a, R a a) (hx : x ∈ h :: t) :
    R h x := by
  rcases List.mem_cons.mp hx with rfl | hx
  · exact hrefl x
  · exact (List.pairwise_cons.mp hp).1 x hx

theorem pairwise_rel_getLast {R : α → α → Prop} :
    ∀ (l : List α) (hne : l ≠ []), l.Pairwise R → (∀ a, R a a) →
      ∀ x ∈ l, R x (l.getLast hne)
  | [], hne, _, _, _, _ => absurd rfl hne
  | [a], _, _, hrefl, x, hx => by
    simp at hx
    simpa [hx] using hrefl a
  | a :: b :: t, _, hp, hrefl, x, hx => by
    rw [List.getLast_cons (by simp)]
    rcases List.mem_cons.mp hx with rfl | hx
    · exact (List.pairwise_cons.mp hp).1 _ (List.getLast_mem _)
    · exact pairwise_rel_getLast (b :: t) (by simp) (List.pairwise_cons.mp hp).2
        hrefl x hx

theorem getLast_map_comm (g : α → β) (l : List α) (hne : l ≠ []) :
    (l.map g).getLast (by simp [hne]) = g (l.getLast hne) := by
  have h1 := List.getLast?_eq_getLast (l.map g) (by simp [hne])
  rw [List.getLast?_map, List.getLast?_eq_getLast l hne] at h1
  simpa using h1.symm

theorem buildIdMap_not_mem (crs : List CVERecord) (id : String)
    (h : id ∉ crs.map fun c => c.ID) :
    ∀ m : String → Option CVERecord,
      (crs.foldl (fun m cr => fun i => if i = cr.ID then some cr else m i) m) id = m id := by
  induction crs with
  | nil => intro m ; rfl
  | cons cr rest ih =>
    intro m
    simp only [List.map_cons, List.mem_cons, not_or] at h
    rw [List.foldl_cons, ih h.2]
    simp [h.1]

theorem buildIdMap_fold_mem (crs : List CVERecord) (r : CVERecord)
    (hmem : r ∈ crs) (hnd : (crs.map fun c => c.ID).Nodup) :
    ∀ m : String → Option CVERecord,
      (crs.foldl (fun m cr => fun i => if i = cr.ID then some cr else m i) m)
        r.ID = some r := by
  induction crs generalizing r with
  | nil => simp at hmem
  | cons cr rest ih =>
    intro m
    simp only [List.map_cons, List.nodup_cons] at hnd
    rcases List.mem_cons.mp hmem with rfl | hmem
    · rw [List.foldl_cons, buildIdMap_not_mem rest r.ID hnd.1 _]
      simp
    · rw [List.foldl_cons]
      exact ih r hmem hnd.2 _

theorem buildIdMap_mem (crs : List CVERecord) (r : CVERecord)
    (hmem : r ∈ crs) (hnd : (crs.map fun c => c.ID).Nodup) :
    buildIdMap crs r.ID = some r :=
  buildIdMap_fold_mem crs r hmem hnd _

theorem processOne_skip (blob : GitHash → Except String CVE) (ch : GitHash)
    (nf : TriageF) (idMap : String → Option CVERecord) (f : RepoFile)
    (o : CVERecord) (acc : List CVERecord × Nat × Nat)
    (hfind : idMap (idFromFilename f.filename) = some o)
    (hhash : o.BlobHash = f.blobHash.str) :
    processOne blob ch nf idMap f acc = .ok acc := by
  rw [processOne, hfind]
  simp [hhash]

/-- C2 counterexample: in the batch `[CVE-2014-9999, CVE-2014-10001]`
(numerically sorted, as `updateBatch` receives it), the stored record for
`CVE-2014-10001` has a content hash identical to the file's, so per the
claim the bulk read must return it and the file must be skipped.  Under
the store's string identifier order the range
`["CVE-2014-9999", "CVE-2014-10001"]` is empty, the record is missed, the
triage predicate IS invoked for the unchanged file, and a store write
replaces its record. -/
theorem c2_counterexample :
    c2rec10001.ID = idFromFilename c2f10001.filename ∧
    c2rec10001.BlobHash = c2f10001.blobHash.str ∧
    getCVERecords (idFromFilename c2f9999.filename)
      (idFromFilename c2f10001.filename) [c2rec10001] = [] ∧
    updateBatch c2Blob (mkHash 99) c2Probe [c2f9999, c2f10001] [c2rec10001] =
      .error ("updateBatch(CVE-2014-9999-CVE-2014-10001): " ++
        "handleCVE(CVE-2014-10001.json): predicate invoked") ∧
    c2Run2.isOk = true ∧
    (c2Run2.toOption.map fun x =>
      decide (lookupRec "CVE-2014-10001" x.1 = some c2rec10001)) = some false := by
  refine ⟨by decide, by decide, by decide, by decide, by decide, by decide⟩

/-- C2 (amended): for every batch whose filename identifiers are ascending
in the store's string order (in particular any batch of equal-width
sequences) and every store with unique identifiers, the single bulk read
over `[first, last]` returns every stored record whose identifier matches
a file of the batch, the transaction's lookup finds it, and a file whose
matching record carries an identical content hash is skipped: its per-file
step returns its accumulator unchanged — no store write, no count — for
every triage predicate.  (For a batch spanning a sequence-width boundary
the string range is empty and the unchanged file is reprocessed instead.) -/
theorem c2_sorted_batch_skips_unchanged (f0 : RepoFile) (rest : List RepoFile)
    (recs : List CVERecord) (r : CVERecord) (f : RepoFile)
    (hmem : f ∈ f0 :: rest)
    (hsorted : ((f0 :: rest).map fun g => idFromFilename g.filename).Pairwise
      (fun a b => strLe a b = true))
    (hnd : (recs.map fun c => c.ID).Nodup)
    (hr : r ∈ recs) (hid : r.ID = idFromFilename f.filename) :
    r ∈ getCVERecords (idFromFilename f0.filename)
        (idFromFilename (((f0 :: rest).getLast (by simp)).filename)) recs ∧
    buildIdMap (getCVERecords (idFromFilename f0.filename)
        (idFromFilename (((f0 :: rest).getLast (by simp)).filename)) recs)
      r.ID = some r ∧
    (r.BlobHash = f.blobHash.str →
      ∀ (blob : GitHash → Except String CVE) (ch : GitHash) (nf : TriageF)
        (acc : List CVERecord × Nat × Nat),
        processOne blob ch nf
          (buildIdMap (getCVERecords (idFromFilename f0.filename)
            (idFromFilename (((f0 :: rest).getLast (by simp)).filename)) recs))
          f acc = .ok acc) := by
  have hrefl : ∀ a : String, strLe a a = true := strLe_refl
  have hfm : idFromFilename f.filename ∈
      (f0 :: rest).map fun g => idFromFilename g.filename :=
    List.mem_map.mpr ⟨f, hmem, rfl⟩
  rw [List.map_cons] at hsorted hfm
  have hlow : strLe (idFromFilename f0.filename) (idFromFilename f.filename) = true :=
    @pairwise_head_rel String (fun a b => strLe a b = true) _ _ _ hsorted hrefl hfm
  have hlast :
      ((idFromFilename f0.filename) ::
          (rest.map fun g => idFromFilename g.filename)).getLast (by simp) =
        idFromFilename (((f0 :: rest).getLast (by simp)).filename) := by
    have e2 : ((idFromFilename f0.filename) ::
        (rest.map fun g => idFromFilename g.filename)).getLast? =
          some (idFromFilename (((f0 :: rest).getLast (by simp)).filename)) := by
      show ((f0 :: rest).map fun g => idFromFilename g.filename).getLast? =
        some (idFromFilename (((f0 :: rest).getLast (by simp)).filename))
      rw [List.getLast?_map, List.getLast?_eq_getLast (f0 :: rest) (by simp)]
      rfl
    have e1 := List.getLast?_eq_getLast ((idFromFilename f0.filename) ::
      (rest.map fun g => idFromFilename g.filename)) (by simp)
    rw [e1] at e2
    exact Option.some.inj e2
  have hhigh : strLe (idFromFilename f.filename)
      (idFromFilename (((f0 :: rest).getLast (by simp)).filename)) = true := by
    have h2 := @pairwise_rel_getLast String (fun a b => strLe a b = true) _
      (by simp) hsorted hrefl _ hfm
    rw [hlast] at h2
    exact h2
  have hin : r ∈ getCVERecords (idFromFilename f0.filename)
      (idFromFilename (((f0 :: rest).getLast (by simp)).filename)) recs := by
    rw [getCVERecords]
    refine List.mem_filter.mpr ⟨hr, ?_⟩
    rw [hid]
    simp [hlow, hhigh]
  have hndf : ((getCVERecords (idFromFilename f0.filename)
      (idFromFilename (((f0 :: rest).getLast (by simp)).filename)) recs).map
        fun c => c.ID).Nodup := by
    refine List.Nodup.sublist ?_ hnd
    exact List.Sublist.map _ (List.filter_sublist recs)
  have hmap := buildIdMap_mem _ r hin hndf
  refine ⟨hin, hmap, fun hhash blob ch nf acc => ?_⟩
  refine processOne_skip blob ch nf _ f r acc ?_ hhash
  rw [← hid]
  exact hmap

/-- Witness for C2 (amended): a same-width two-file batch over a store
holding an identical-hash record for the first file; the record is in the
range read, found by the lookup, and its file's step is a no-op. -/
theorem c2_witness :
    c2rA ∈ getCVERecords (idFromFilename c2fA.filename)
      (idFromFilename (([c2fA, c2fB].getLast (by simp)).filename)) [c2rA] ∧
    buildIdMap (getCVERecords (idFromFilename c2fA.filename)
      (idFromFilename (([c2fA, c2fB].getLast (by simp)).filename)) [c2rA])
      c2rA.ID = some c2rA ∧
    processOne c2Blob (mkHash 99) c2Probe
      (buildIdMap (getCVERecords (idFromFilename c2fA.filename)
        (idFromFilename (([c2fA, c2fB].getLast (by simp)).filename)) [c2rA]))
      c2fA ([c2rA], 0, 0) = .ok ([c2rA], 0, 0) := by
  have h := c2_sorted_batch_skips_unchanged c2fA [c2fB] [c2rA] c2rA c2fA
    (by simp) (by decide) (by decide) (by simp) (by decide)
  exact ⟨h.1, h.2.1, h.2.2 (by decide) c2Blob (mkHash 99) c2Probe ([c2rA], 0, 0)⟩

theorem buildGroups_flatten :
    ∀ (fs : List RepoFile) (result : List (List RepoFile)) (cur : List RepoFile),
      (buildGroups fs result cur).flatten = result.flatten ++ (cur ++ fs) := by
  intro fs
  induction fs with
  | nil =>
    intro result cur
    rcases cur with - | ⟨c0, t⟩ <;> simp [buildGroups]
  | cons f fs ih =>
    intro result cur
    rcases cur with - | ⟨c0, t⟩
    · rw [buildGroups, ih]
      simp
    · rw [buildGroups]
      split
      · rw [ih]
        simp
      · rw [ih]
        simp

theorem flatten_split {α : Type} :
    ∀ (gs : List (List α)) (u v : List α) (x : α),
      gs.flatten = u ++ x :: v →
      ∃ X p q Y, gs = X ++ (p ++ x :: q) :: Y ∧
        u = X.flatten ++ p ∧ v = q ++ Y.flatten := by
  intro gs
  induction gs with
  | nil =>
    intro u v x h
    rcases u with - | ⟨a, u⟩ <;> simp at h
  | cons g gs' ih =>
    intro u v x h
    rw [List.flatten_cons] at h
    rcases List.append_eq_append_iff.mp h with ⟨a', ha1, ha2⟩ | ⟨c', hc1, hc2⟩
    · obtain ⟨X, p, q, Y, hgs, hu, hv⟩ := ih a' v x ha2
      exact ⟨g :: X, p, q, Y, by simp [hgs], by simp [ha1, hu], hv⟩
    · rcases c' with - | ⟨x', q⟩
      · simp only [List.nil_append] at hc2
        obtain ⟨X, p, q, Y, hgs, hu, hv⟩ := ih [] v x hc2.symm
        obtain ⟨h1, h2⟩ := List.append_eq_nil.mp hu.symm
        have hg : g = u := by simpa using hc1
        refine ⟨g :: X, p, q, Y, by simp [hgs], ?_, hv⟩
        simp [h1, h2, ← hg]
      · obtain ⟨hx, hv⟩ : x' = x ∧ v = q ++ gs'.flatten := by
          have := hc2
          simp only [List.cons_append] at this
          exact ⟨(List.cons.injEq _ _ _ _ ▸ this).1.symm,
            ((List.cons.injEq _ _ _ _ ▸ this).2).symm ▸ rfl⟩
        subst hx
        exact ⟨[], u, q, gs', by simp [hc1], by simp, by rw [hv]⟩

theorem map_split {α β : Type} (f : α → β) :
    ∀ (l : List α) (u : List β) (x : β) (v : List β),
      l.map f = u ++ x :: v →
      ∃ lu g lv, l = lu ++ g :: lv ∧ lu.map f = u ∧ f g = x ∧ lv.map f = v := by
  intro l
  induction l with
  | nil =>
    intro u x v h
    rcases u with - | ⟨a, u⟩ <;> simp at h
  | cons a l' ih =>
    intro u x v h
    rcases u with - | ⟨ub, u'⟩
    · simp only [List.map_cons, List.nil_append] at h
      exact ⟨[], a, l', by simp, rfl, (List.cons.injEq _ _ _ _ ▸ h).1,
        (List.cons.injEq _ _ _ _ ▸ h).2⟩
    · simp only [List.map_cons, List.cons_append] at h
      obtain ⟨lu, g, lv, hl, hu, hx, hv⟩ :=
        ih u' x v (List.cons.injEq _ _ _ _ ▸ h).2
      exact ⟨a :: lu, g, lv, by simp [hl], by
        simp [hu, (List.cons.injEq _ _ _ _ ▸ h).1], hx, hv⟩

theorem sublist_pair_split {α : Type} (x : α) :
    ∀ l : List α, [x, x].Sublist l → ∃ u v w, l = u ++ x :: v ++ x :: w := by
  intro l
  induction l with
  | nil => intro h ; exact absurd h (by simp)
  | cons c l' ih =>
    intro h
    cases h with
    | cons _ h =>
      obtain ⟨u, v, w, hl⟩ := ih h
      exact ⟨c :: u, v, w, by simp [hl]⟩
    | cons₂ _ h =>
      have hx : x ∈ l' := List.singleton_sublist.mp h
      obtain ⟨s, t, hl⟩ := List.append_of_mem hx
      exact ⟨[], s, t, by simp [hl]⟩

theorem buildGroups_good :
    ∀ (fs : List RepoFile) (result : List (List RepoFile)) (cur : List RepoFile),
      (∀ g ∈ result, ∃ f0 t, g = f0 :: t ∧ ∀ x ∈ g, x.dirPath = f0.dirPath) →
      (cur = [] ∨ ∃ f0 t, cur = f0 :: t ∧ ∀ x ∈ cur, x.dirPath = f0.dirPath) →
      ∀ g ∈ buildGroups fs result cur,
        ∃ f0 t, g = f0 :: t ∧ ∀ x ∈ g, x.dirPath = f0.dirPath := by
  intro fs
  induction fs with
  | nil =>
    intro result cur hres hcur g hg
    rcases cur with - | ⟨c0, t⟩
    · rw [buildGroups] at hg
      exact hres g (by simpa using hg)
    · rw [buildGroups] at hg
      simp only [List.isEmpty_cons, Bool.false_eq_true, if_false] at hg
      rcases List.mem_append.mp hg with hg | hg
      · exact hres g hg
      · rcases hcur with hcur | hcur
        · exact absurd hcur (by simp)
        · rw [List.mem_singleton.mp hg]
          exact hcur
  | cons f fs ih =>
    intro result cur hres hcur g hg
    rcases cur with - | ⟨c0, t⟩
    · rw [buildGroups] at hg
      exact ih result [f] hres (Or.inr ⟨f, [], rfl, by simp⟩) g hg
    · rw [buildGroups] at hg
      split at hg
      · refine ih (result ++ [c0 :: t]) [f] ?_ (Or.inr ⟨f, [], rfl, by simp⟩) g hg
        intro g' hg'
        rcases List.mem_append.mp hg' with hg' | hg'
        · exact hres g' hg'
        · rcases hcur with hcur | hcur
          · exact absurd hcur (by simp)
          · rw [List.mem_singleton.mp hg']
            exact hcur
      · next hne =>
        refine ih result (c0 :: t ++ [f]) hres (Or.inr ?_) g hg
        rcases hcur with hcur | hcur
        · exact absurd hcur (by simp)
        · obtain ⟨f0, t0, hct, hall⟩ := hcur
          have hf0 : f0 = c0 := by
            have := congrArg (fun l => l.head?) hct
            simpa using this.symm
          refine ⟨c0, t ++ [f], by simp, ?_⟩
          intro x hx
          rcases List.mem_append.mp hx with hx | hx
          · exact (hall x (hct ▸ hx)).trans (by rw [hf0])
          · have : x = f := List.mem_singleton.mp hx
            subst this
            simp at hne
            exact hne

theorem buildGroups_chain :
    ∀ (fs : List RepoFile) (result : List (List RepoFile)) (c0 : RepoFile)
      (t : List RepoFile),
      (result ++ [c0 :: t]).Chain' (fun g g' => headDirPath g ≠ headDirPath g') →
      (buildGroups fs result (c0 :: t)).Chain'
        (fun g g' => headDirPath g ≠ headDirPath g') := by
  intro fs
  induction fs with
  | nil =>
    intro result c0 t hch
    rw [buildGroups]
    simpa using hch
  | cons f fs ih =>
    intro result c0 t hch
    rw [buildGroups]
    split
    · next hne =>
      apply ih (result ++ [c0 :: t]) f []
      rw [List.chain'_append]
      refine ⟨hch, by simp, ?_⟩
      intro x hx y hy
      rw [List.getLast?_concat] at hx
      simp only [List.head?_cons, Option.mem_def, Option.some.injEq] at hx hy
      rw [← hx, ← hy]
      show c0.dirPath ≠ f.dirPath
      exact fun he => hne he.symm
    · next hne =>
      have heq : (c0 :: t) ++ [f] = c0 :: (t ++ [f]) := by simp
      apply ih result c0 (t ++ [f])
      rw [List.chain'_append] at hch ⊢
      refine ⟨hch.1, by simp, ?_⟩
      intro x hx y hy
      simp only [List.head?_cons, Option.mem_def, Option.some.injEq] at hy
      have := hch.2.2 x hx (c0 :: t) (by simp)
      rw [← hy]
      exact this

theorem dupHead_none :
    ∀ (l seen : List String),
      dupHead l seen = none ↔ l.Nodup ∧ ∀ d ∈ l, d ∉ seen := by
  intro l
  induction l with
  | nil => intro seen ; simp [dupHead]
  | cons d ds ih =>
    intro seen
    rw [dupHead]
    by_cases hc : seen.contains d
    · rw [if_pos hc]
      have hd : d ∈ seen := List.elem_iff.mp hc
      constructor
      · intro h ; exact absurd h (by simp)
      · rintro ⟨-, hall⟩
        exact absurd hd (hall d (List.mem_cons_self d ds))
    · rw [if_neg hc]
      rw [ih (d :: seen)]
      have hd : d ∉ seen := by
        intro hmem
        exact hc (List.elem_iff.mpr hmem)
      constructor
      · rintro ⟨hnd, hall⟩
        refine ⟨List.nodup_cons.mpr ⟨fun hmem => ?_, hnd⟩, ?_⟩
        · exact (hall d hmem) (List.mem_cons_self d seen)
        · intro e he
          rcases List.mem_cons.mp he with rfl | he
          · exact hd
          · intro hs
            exact (hall e he) (List.mem_cons_of_mem _ hs)
      · rintro ⟨hnd, hall⟩
        refine ⟨(List.nodup_cons.mp hnd).2, ?_⟩
        intro e he hmem
        rcases List.mem_cons.mp hmem with rfl | hmem
        · exact (List.nodup_cons.mp hnd).1 he
        · exact (hall e (List.mem_cons_of_mem _ he)) hmem

theorem dup_heads_nonadjacent (gs : List (List RepoFile)) (files : List RepoFile)
    (hflat : gs.flatten = files)
    (hgood : ∀ g ∈ gs, ∃ f0 t, g = f0 :: t ∧ ∀ x ∈ g, x.dirPath = f0.dirPath)
    (hchain : gs.Chain' (fun g g' => headDirPath g ≠ headDirPath g'))
    (hdup : ¬ (gs.map headDirPath).Nodup) :
    NonAdjacentDup files := by
  rw [List.nodup_iff_sublist] at hdup
  push_neg at hdup
  obtain ⟨d, hsub⟩ := hdup
  obtain ⟨u, v, w, hmap⟩ := sublist_pair_split d _ hsub
  have hmap2 : gs.map headDirPath = u ++ d :: (v ++ d :: w) := by
    rw [hmap] ; simp
  obtain ⟨U, gA, rest1, hgs1, hU, hgA, hrest1⟩ :=
    map_split headDirPath gs u d (v ++ d :: w) hmap2
  obtain ⟨V, gC, W, hrest, hV, hgC, hW⟩ := map_split headDirPath rest1 v d w hrest1
  rcases V with - | ⟨gB, V'⟩
  · exfalso
    simp only [List.nil_append] at hrest
    have hgsA : gs = U ++ gA :: gC :: W := by rw [hgs1, hrest]
    have hch2 : List.Chain' (fun g g' => headDirPath g ≠ headDirPath g') (gA :: gC :: W) := by
      have hch := hchain
      rw [hgsA] at hch
      exact (List.chain'_append.mp hch).2.1
    have hlink := (List.chain'_cons.mp hch2).1
    exact hlink (hgA.trans hgC.symm)
  · have hgsfull : gs = U ++ gA :: gB :: (V' ++ gC :: W) := by
      rw [hgs1, hrest] ; simp
    have hlink : headDirPath gA ≠ headDirPath gB := by
      have hch2 : List.Chain' (fun g g' => headDirPath g ≠ headDirPath g')
          (gA :: gB :: (V' ++ gC :: W)) := by
        have hch := hchain
        rw [hgsfull] at hch
        exact (List.chain'_append.mp hch).2.1
      exact (List.chain'_cons.mp hch2).1
    obtain ⟨a, tA, hA, hallA⟩ := hgood gA (by rw [hgsfull] ; simp)
    obtain ⟨b, tB, hB, hallB⟩ := hgood gB (by rw [hgsfull] ; simp)
    obtain ⟨c, tC, hC, hallC⟩ := hgood gC (by rw [hgsfull] ; simp)
    have hda : a.dirPath = d := by rw [← hgA, hA] ; rfl
    have hdc : c.dirPath = d := by rw [← hgC, hC] ; rfl
    have hdb : b.dirPath ≠ d := by
      intro hbd
      apply hlink
      rw [hA, hB]
      show a.dirPath = b.dirPath
      rw [hda, hbd]
    refine ⟨U.flatten, tA, tB ++ V'.flatten, tC ++ W.flatten, a, b, c, ?_, ?_, ?_⟩
    · rw [← hflat, hgsfull]
      simp [hA, hB, hC]
    · rw [hda, hdc]
    · rw [hda]
      exact hdb

theorem group_ok_not_nonadjacent (files : List RepoFile)
    (gs : List (List RepoFile))
    (hok : groupFilesByDirectory files = .ok gs) : ¬ NonAdjacentDup files := by
  rintro ⟨l1, l2, l3, l4, a, b, c, heq, hac, hba⟩
  rw [groupFilesByDirectory] at hok
  by_cases hemp : files.isEmpty
  · rw [if_pos hemp] at hok
    have hfe : files = [] := by simpa using hemp
    rw [hfe] at heq
    exact absurd heq.symm (by simp)
  · rw [if_neg hemp] at hok
    rcases hdh : dupHead ((buildGroups files [] []).map headDirPath) [] with - | d
    rotate_left
    · rw [hdh] at hok ; exact absurd hok (by simp)
    rw [hdh] at hok
    have hgseq : buildGroups files [] [] = gs := by simpa using hok
    have hnodup : (gs.map headDirPath).Nodup := by
      rw [← hgseq]
      exact ((dupHead_none _ _).mp hdh).1
    have hflat : gs.flatten = files := by
      rw [← hgseq, buildGroups_flatten files [] []] ; simp
    have hgood : ∀ g ∈ gs,
        ∃ f0 t, g = f0 :: t ∧ ∀ x ∈ g, x.dirPath = f0.dirPath := by
      rw [← hgseq]
      exact buildGroups_good files [] [] (by simp) (Or.inl rfl)
    have hfl : gs.flatten = l1 ++ a :: (l2 ++ b :: (l3 ++ c :: l4)) := by
      rw [hflat, heq]
    obtain ⟨X, p, q, Y, hgs1, hu1, hv1⟩ :=
      flatten_split gs l1 (l2 ++ b :: (l3 ++ c :: l4)) a hfl
    have hgAmem : (p ++ a :: q) ∈ gs := by rw [hgs1] ; simp
    obtain ⟨fA, tA, hfA, hallA⟩ := hgood _ hgAmem
    have haA : a.dirPath = fA.dirPath := hallA a (by simp)
    have hYb : ∃ w, Y.flatten = w ++ b :: (l3 ++ c :: l4) := by
      rcases List.append_eq_append_iff.mp hv1.symm with ⟨w1, -, hw2⟩ | ⟨w1, hw1, hw2⟩
      · exact ⟨w1, hw2⟩
      · rcases w1 with - | ⟨b', qq⟩
        · exact ⟨[], by simpa using hw2.symm⟩
        · exfalso
          have hb' : b' = b := by
            have := hw2
            simp only [List.cons_append] at this
            exact ((List.cons.injEq _ _ _ _ ▸ this).1).symm
          rw [hb'] at hw1
          have hbq : b ∈ q := by rw [hw1] ; simp
          have hbA : b.dirPath = fA.dirPath := hallA b (by simp [hbq])
          exact hba (hbA.trans haA.symm)
    obtain ⟨w, hYb⟩ := hYb
    obtain ⟨X2, p2, q2, Y2, hgs2, hu2, hv2⟩ :=
      flatten_split Y w (l3 ++ c :: l4) b hYb
    have hgBmem : (p2 ++ b :: q2) ∈ gs := by rw [hgs1, hgs2] ; simp
    obtain ⟨fB, tB, hfB, hallB⟩ := hgood _ hgBmem
    have hbB : b.dirPath = fB.dirPath := hallB b (by simp)
    have hYc : ∃ w2, Y2.flatten = w2 ++ c :: l4 := by
      rcases List.append_eq_append_iff.mp hv2.symm with ⟨w1, -, hw2⟩ | ⟨w1, hw1, hw2⟩
      · exact ⟨w1, hw2⟩
      · rcases w1 with - | ⟨c', qq⟩
        · exact ⟨[], by simpa using hw2.symm⟩
        · exfalso
          have hc' : c' = c := by
            have := hw2
            simp only [List.cons_append] at this
            exact ((List.cons.injEq _ _ _ _ ▸ this).1).symm
          rw [hc'] at hw1
          have hcq : c ∈ q2 := by rw [hw1] ; simp
          have hcB : c.dirPath = fB.dirPath := hallB c (by simp [hcq])
          exact hba ((hbB.trans hcB.symm).trans hac.symm)
    obtain ⟨w2, hYc⟩ := hYc
    obtain ⟨X3, p3, q3, Y3, hgs3, hu3, hv3⟩ := flatten_split Y2 w2 l4 c hYc
    have hgCmem : (p3 ++ c :: q3) ∈ gs := by rw [hgs1, hgs2, hgs3] ; simp
    obtain ⟨fC, tC, hfC, hallC⟩ := hgood _ hgCmem
    have hcC : c.dirPath = fC.dirPath := hallC c (by simp)
    have hheadA : headDirPath (p ++ a :: q) = a.dirPath := by
      rw [hfA] ; show fA.dirPath = a.dirPath ; rw [haA]
    have hheadC : headDirPath (p3 ++ c :: q3) = a.dirPath := by
      rw [hfC] ; show fC.dirPath = a.dirPath ; rw [← hcC, ← hac]
    have hsub : [a.dirPath, a.dirPath].Sublist (gs.map headDirPath) := by
      have hCinY : (p3 ++ c :: q3) ∈ Y := by rw [hgs2, hgs3] ; simp
      have h1 : [a.dirPath].Sublist (Y.map headDirPath) := by
        rw [List.singleton_sublist, ← hheadC]
        exact List.mem_map_of_mem headDirPath hCinY
      have h2 : [a.dirPath, a.dirPath].Sublist (a.dirPath :: Y.map headDirPath) :=
        List.Sublist.cons₂ _ h1
      have h3 : (a.dirPath :: Y.map headDirPath).Sublist (gs.map headDirPath) := by
        rw [hgs1, List.map_append, List.map_cons, hheadA]
        exact List.sublist_append_right _ _
      exact h2.trans h3
    exact (List.nodup_iff_sublist.mp hnodup a.dirPath) hsub

/-- C6: a file list in which some directory appears in two non-adjacent
runs is rejected by `groupFilesByDirectory` with a fatal error, and
`doUpdate` on a commit walking to such a list returns before any store
write — the final store state is exactly the initial one.  A list whose
directories are contiguous is partitioned order-preservingly into
nonempty single-directory groups, one group per directory. -/
theorem c6_contiguity (files : List RepoFile) :
    (NonAdjacentDup files →
      (∃ e, groupFilesByDirectory files = .error e) ∧
      (∀ (repo : Repo) (ch : GitHash) (nf : TriageF) (t1 t2 : Nat)
          (s : StoreState) (commit : Commit),
        repo.commits ch = some commit →
        repoCVEFiles commit = some (.ok files) →
        ∃ e, doUpdate repo ch nf t1 t2 s = some ((none, some e), s))) ∧
    (¬ NonAdjacentDup files →
      ∃ gs, groupFilesByDirectory files = .ok gs ∧ gs.flatten = files ∧
        (∀ g ∈ gs, ∃ f0 t, g = f0 :: t ∧ ∀ x ∈ g, x.dirPath = f0.dirPath) ∧
        (gs.map headDirPath).Nodup) := by
  constructor
  · intro hnad
    have herr : ∃ e, groupFilesByDirectory files = .error e := by
      rcases hg : groupFilesByDirectory files with e | gs
      · exact ⟨e, rfl⟩
      · exact absurd hnad (group_ok_not_nonadjacent files gs hg)
    refine ⟨herr, ?_⟩
    intro repo ch nf t1 t2 s commit hcm hrf
    obtain ⟨e, hge⟩ := herr
    refine ⟨"doUpdate(" ++ ch.str ++ "): " ++ e, ?_⟩
    rw [doUpdate]
    simp only [hcm, hrf, hge]
  · intro hnad
    by_cases hemp : files.isEmpty
    · have hfe : files = [] := by simpa using hemp
      subst hfe
      exact ⟨[], by rw [groupFilesByDirectory] ; rfl, by simp, by simp, by simp⟩
    · rcases hdh : dupHead ((buildGroups files [] []).map headDirPath) [] with - | d
      · refine ⟨buildGroups files [] [], ?_, ?_, ?_, ?_⟩
        · rw [groupFilesByDirectory, if_neg hemp, hdh]
        · rw [buildGroups_flatten] ; simp
        · exact buildGroups_good files [] [] (by simp) (Or.inl rfl)
        · exact ((dupHead_none _ _).mp hdh).1
      · exfalso
        apply hnad
        have hnn : ¬ ((buildGroups files [] []).map headDirPath).Nodup := by
          intro hnd
          have hnone : dupHead ((buildGroups files [] []).map headDirPath) [] = none :=
            (dupHead_none _ _).mpr ⟨hnd, by simp⟩
          rw [hdh] at hnone
          exact absurd hnone (by simp)
        have hchain : (buildGroups files [] []).Chain'
            (fun g g' => headDirPath g ≠ headDirPath g') := by
          rcases hfs : files with - | ⟨f, fs'⟩
          · exact absurd hfs (by simpa using hemp)
          · exact buildGroups_chain fs' [] f [] (by simp)
        exact dup_heads_nonadjacent _ files (by rw [buildGroups_flatten] ; simp)
          (buildGroups_good files [] [] (by simp) (Or.inl rfl)) hchain hnn

/-- Witness for C6: the sorted list `a, b, a` has a non-adjacent duplicate
directory; grouping rejects it and `doUpdate` leaves the store exactly as
it was. -/
theorem c6_witness :
    NonAdjacentDup c6Files ∧
    (∃ e, groupFilesByDirectory c6Files = .error e) ∧
    repoCVEFiles c6Commit = some (.ok c6Files) ∧
    (∃ e, doUpdate c6Repo (mkHash 56) (fun _ => .ok true) 1 2 store0 =
      some ((none, some e), store0)) := by
  have hnad : NonAdjacentDup c6Files :=
    ⟨[], [], [], [], c6fa1, c6fb2, c6fa3, by decide, by decide, by decide⟩
  have h := (c6_contiguity c6Files).1 hnad
  exact ⟨hnad, h.1, by decide,
    h.2 c6Repo (mkHash 56) (fun _ => .ok true) 1 2 store0 c6Commit
      (by rfl) (by decide)⟩

theorem updateBatch_error_ne (blob : GitHash → Except String CVE)
    (ch : GitHash) (nf : TriageF) (batch : List RepoFile)
    (recs : List CVERecord) (e : String)
    (h : updateBatch blob ch nf batch recs = .error e) : e ≠ "" := by
  rcases batch with - | ⟨f0, rest⟩
  · exact absurd h (by simp [updateBatch])
  · rw [updateBatch] at h
    rcases hin : processFiles blob ch nf
        (buildIdMap (getCVERecords (idFromFilename f0.filename)
          (idFromFilename ((f0 :: rest).getLast (by simp)).filename) recs))
        (f0 :: rest) (recs, 0, 0) with e' | acc
    · simp only [hin, wrapErr] at h
      simp only [Except.error.injEq] at h
      intro he
      rw [he] at h
      have := congrArg String.data h
      simp [String.data_append] at this
    · simp only [hin, wrapErr] at h
      exact absurd h (by simp)

theorem runBatches_error_ne (blob : GitHash → Except String CVE)
    (ch : GitHash) (nf : TriageF) :
    ∀ (bs : List (List RepoFile)) (recs : List CVERecord)
      (acc : Nat × Nat × Nat) (e : String) (recs2 : List CVERecord),
      runBatches blob ch nf bs recs acc = (.error e, recs2) → e ≠ "" := by
  intro bs
  induction bs with
  | nil =>
    intro recs acc e recs2 h
    exact absurd h (by simp [runBatches])
  | cons b bs ih =>
    intro recs acc e recs2 h
    rcases acc with ⟨p, a, m⟩
    rw [runBatches] at h
    rcases hub : updateBatch blob ch nf b recs with e' | r
    · rw [hub] at h
      simp only [Prod.mk.injEq, Except.error.injEq] at h
      rw [← h.1]
      exact updateBatch_error_ne blob ch nf b recs e' hub
    · rcases r with ⟨recs3, ba, bm⟩
      rw [hub] at h
      exact ih recs3 _ e recs2 h

theorem updateDirectory_error_ne (blob : GitHash → Except String CVE)
    (ch : GitHash) (nf : TriageF) (dirFiles : List RepoFile) (s : StoreState)
    (e : String) (s' : StoreState)
    (h : updateDirectory blob ch nf dirFiles s = (.error e, s')) : e ≠ "" := by
  rcases dirFiles with - | ⟨f0, rest⟩
  · exact absurd h (by simp [updateDirectory])
  · rw [updateDirectory] at h
    by_cases hgate : f0.treeHash.str = s.getDirHash f0.dirPath
    · rw [if_pos hgate] at h
      exact absurd h (by simp)
    · rw [if_neg hgate] at h
      rcases hrb : runBatches blob ch nf (chunks batchSize (f0 :: rest))
          (s.setDirHash f0.dirPath "in progress").recs (0, 0, 0) with ⟨res, recs2⟩
      rcases res with e' | pam
      · rw [hrb] at h
        simp only [Prod.mk.injEq, Except.error.injEq] at h
        rw [← h.1]
        exact runBatches_error_ne blob ch nf _ _ _ e' recs2 hrb
      · rcases pam with ⟨p, a, m⟩
        rw [hrb] at h
        exact absurd h (by simp)

theorem updateDirectory_ok_marker (blob : GitHash → Except String CVE)
    (ch : GitHash) (nf : TriageF) (dirFiles : List RepoFile)
    (s : StoreState) (pam : Nat × Nat × Nat) (s' : StoreState)
    (hne : dirFiles ≠ [])
    (h : updateDirectory blob ch nf dirFiles s = (.ok pam, s')) :
    s'.getDirHash (headDirPath dirFiles) = headHashStr dirFiles := by
  rcases dirFiles with - | ⟨f0, rest⟩
  · exact absurd rfl hne
  show s'.getDirHash f0.dirPath = f0.treeHash.str
  rw [updateDirectory] at h
  by_cases hgate : f0.treeHash.str = s.getDirHash f0.dirPath
  · rw [if_pos hgate] at h
    simp only [Prod.mk.injEq] at h
    rw [← h.2, ← hgate]
  · rw [if_neg hgate] at h
    rcases hrb : runBatches blob ch nf (chunks batchSize (f0 :: rest))
        (s.setDirHash f0.dirPath "in progress").recs (0, 0, 0) with ⟨res, recs2⟩
    rcases res with e' | pam'
    · rw [hrb] at h
      exact absurd h (by simp)
    · rcases pam' with ⟨p, a, m⟩
      rw [hrb] at h
      simp only [Prod.mk.injEq] at h
      rw [← h.2]
      simp [StoreState.getDirHash, StoreState.setDirHash, assocGet_set_self]

theorem updateDirectory_marker_other (blob : GitHash → Except String CVE)
    (ch : GitHash) (nf : TriageF) (dirFiles : List RepoFile) (s : StoreState)
    (res : Except String (Nat × Nat × Nat)) (s' : StoreState)
    (h : updateDirectory blob ch nf dirFiles s = (res, s')) :
    ∀ p, p ≠ headDirPath dirFiles → s'.getDirHash p = s.getDirHash p := by
  intro p hp
  rcases dirFiles with - | ⟨f0, rest⟩
  · rw [updateDirectory] at h
    simp only [Prod.mk.injEq] at h
    rw [← h.2]
  · rw [updateDirectory] at h
    by_cases hgate : f0.treeHash.str = s.getDirHash f0.dirPath
    · rw [if_pos hgate] at h
      simp only [Prod.mk.injEq] at h
      rw [← h.2]
    · rw [if_neg hgate] at h
      have hp' : p ≠ f0.dirPath := hp
      rcases hrb : runBatches blob ch nf (chunks batchSize (f0 :: rest))
          (s.setDirHash f0.dirPath "in progress").recs (0, 0, 0) with ⟨r, recs2⟩
      rcases r with e' | ⟨pp, aa, mm⟩
      · rw [hrb] at h
        simp only [Prod.mk.injEq] at h
        rw [← h.2]
        simp [StoreState.getDirHash, StoreState.setDirHash,
          assocGet_set_other _ _ _ _ hp']
      · rw [hrb] at h
        simp only [Prod.mk.injEq] at h
        rw [← h.2]
        simp [StoreState.getDirHash, StoreState.setDirHash,
          assocGet_set_other _ _ _ _ hp']

theorem loop_error_ne (blob : GitHash → Except String CVE) (ch : GitHash)
    (nf : TriageF) :
    ∀ (gs : List (List RepoFile)) (ur : CommitUpdateRecord) (s : StoreState),
      ur.Error ≠ "" → (doUpdateLoop blob ch nf gs ur s).1.Error ≠ "" := by
  intro gs
  induction gs with
  | nil => intro ur s h ; exact h
  | cons g rest ih =>
    intro ur s h
    rw [doUpdateLoop]
    rcases hud : updateDirectory blob ch nf g s with ⟨res, s2⟩
    rcases res with e | ⟨p, a, m⟩
    · exact ih _ _ (updateDirectory_error_ne blob ch nf g s e s2 hud)
    · exact ih _ _ h

theorem loop_dirHash_pre (blob : GitHash → Except String CVE) (ch : GitHash)
    (nf : TriageF) :
    ∀ (gs : List (List RepoFile)) (ur : CommitUpdateRecord) (s : StoreState)
      (p : String), p ∉ gs.map headDirPath →
      (doUpdateLoop blob ch nf gs ur s).2.getDirHash p = s.getDirHash p := by
  intro gs
  induction gs with
  | nil => intro ur s p _ ; rfl
  | cons g rest ih =>
    intro ur s p hp
    simp only [List.map_cons, List.mem_cons, not_or] at hp
    rw [doUpdateLoop]
    rcases hud : updateDirectory blob ch nf g s with ⟨res, s2⟩
    have hpre := updateDirectory_marker_other blob ch nf g s res s2 hud p hp.1
    rcases res with e | ⟨pp, aa, mm⟩
    · rw [ih _ _ p hp.2]
      exact hpre
    · rw [ih _ _ p hp.2]
      exact hpre

theorem loop_markers (blob : GitHash → Except String CVE) (ch : GitHash)
    (nf : TriageF) :
    ∀ (gs : List (List RepoFile)) (ur : CommitUpdateRecord) (s : StoreState),
      (∀ g ∈ gs, g ≠ []) → (gs.map headDirPath).Nodup →
      (doUpdateLoop blob ch nf gs ur s).1.Error = "" →
      ∀ g ∈ gs,
        (doUpdateLoop blob ch nf gs ur s).2.getDirHash (headDirPath g) =
          headHashStr g := by
  intro gs
  induction gs with
  | nil => intro ur s _ _ _ g hg ; simp at hg
  | cons g0 rest ih =>
    intro ur s hne hnd herr g hg
    simp only [List.map_cons, List.nodup_cons] at hnd
    rw [doUpdateLoop] at herr ⊢
    rcases hud : updateDirectory blob ch nf g0 s with ⟨res, s2⟩
    rw [hud] at herr
    rcases res with e | ⟨pp, aa, mm⟩
    · exfalso
      refine loop_error_ne blob ch nf rest _ _ ?_ herr
      show e ≠ ""
      exact updateDirectory_error_ne blob ch nf g0 s e s2 hud
    · rcases List.mem_cons.mp hg with rfl | hg
      · rw [loop_dirHash_pre blob ch nf rest _ _ _ hnd.1]
        exact updateDirectory_ok_marker blob ch nf _ s (pp, aa, mm) s2
          (hne _ (by simp)) hud
      · exact ih _ _ (fun g' hg' => hne g' (by simp [hg'])) hnd.2 herr g hg

theorem group_ok_props (files : List RepoFile) (gs : List (List RepoFile))
    (hok : groupFilesByDirectory files = .ok gs) :
    (∀ g ∈ gs, g ≠ []) ∧ (gs.map headDirPath).Nodup := by
  rw [groupFilesByDirectory] at hok
  by_cases hemp : files.isEmpty
  · rw [if_pos hemp] at hok
    simp only [Except.ok.injEq] at hok
    subst hok
    exact ⟨by simp, by simp⟩
  · rw [if_neg hemp] at hok
    rcases hdh : dupHead ((buildGroups files [] []).map headDirPath) [] with - | d
    rotate_left
    · rw [hdh] at hok ; exact absurd hok (by simp)
    rw [hdh] at hok
    have hgseq : buildGroups files [] [] = gs := by simpa using hok
    constructor
    · intro g hg
      obtain ⟨f0, t, hgf, -⟩ := buildGroups_good files [] [] (by simp)
        (Or.inl rfl) g (by rw [hgseq] ; exact hg)
      rw [hgf] ; simp
    · rw [← hgseq]
      exact ((dupHead_none _ _).mp hdh).1

theorem loop_skip (blob : GitHash → Except String CVE) (ch : GitHash)
    (nf : TriageF) :
    ∀ (gs : List (List RepoFile)) (ur : CommitUpdateRecord) (s : StoreState),
      (∀ g ∈ gs, g ≠ []) →
      (∀ g ∈ gs, s.getDirHash (headDirPath g) = headHashStr g) →
      ∃ s2, doUpdateLoop blob ch nf gs ur s = (ur, s2) ∧
        s2.recs = s.recs ∧ s2.dirHashes = s.dirHashes := by
  intro gs
  induction gs with
  | nil => intro ur s _ _ ; exact ⟨s, rfl, rfl, rfl⟩
  | cons g rest ih =>
    intro ur s hne hmk
    rcases hg0 : g with - | ⟨f0, t⟩
    · exact absurd hg0 (hne g (by simp))
    have hgate : f0.treeHash.str = s.getDirHash f0.dirPath := by
      have := hmk g (by simp)
      rw [hg0] at this
      exact this.symm
    have hud : updateDirectory blob ch nf (f0 :: t) s = (.ok (0, 0, 0), s) := by
      rw [updateDirectory, if_pos hgate]
    subst hg0
    rw [doUpdateLoop, hud]
    obtain ⟨s2, hl, hrecs, hdh⟩ := ih ur (s.setRunRec ur)
      (fun g' hg' => hne g' (by simp [hg'])) (fun g' hg' => hmk g' (by simp [hg']))
    exact ⟨s2, hl, hrecs, hdh⟩

/-- C4: idempotence — a second `doUpdate` on the same commit, starting from
the store state a successful first run produced (its run record carries no
error), performs zero adds and zero modifications and leaves every stored
record and every directory-hash marker exactly as the first run left
them. -/
theorem c4_idempotent (repo : Repo) (ch : GitHash) (nf : TriageF)
    (t1 t2 t3 t4 : Nat) (s : StoreState) (ur1 : CommitUpdateRecord)
    (s1 : StoreState)
    (h1 : doUpdate repo ch nf t1 t2 s = some ((some ur1, none), s1))
    (hsucc : ur1.Error = "") :
    ∃ ur2 s2, doUpdate repo ch nf t3 t4 s1 = some ((some ur2, none), s2) ∧
      ur2.NumAdded = 0 ∧ ur2.NumModified = 0 ∧
      s2.recs = s1.recs ∧ s2.dirHashes = s1.dirHashes := by
  rw [doUpdate] at h1
  rcases hcm : repo.commits ch with - | commit
  · rw [hcm] at h1 ; simp at h1
  simp only [hcm] at h1
  rcases hrf : repoCVEFiles commit with - | fe
  · rw [hrf] at h1 ; simp at h1
  rcases fe with e | files
  · rw [hrf] at h1 ; simp at h1
  simp only [hrf] at h1
  rcases hg : groupFilesByDirectory files with e | gs
  · rw [hg] at h1 ; simp at h1
  simp only [hg] at h1
  rcases hloop : doUpdateLoop repo.blobCVE ch nf gs
      (initialUR t1 ch commit.commitTime files.length)
      (s.setRunRec (initialUR t1 ch commit.commitTime files.length))
    with ⟨urf, sf⟩
  rw [hloop] at h1
  simp only [Option.some.injEq, Prod.mk.injEq] at h1
  obtain ⟨⟨hur, -⟩, hs1⟩ := h1
  have hurfErr : urf.Error = "" := by
    have : ({ urf with EndedAt := some t2 } : CommitUpdateRecord).Error = "" := by
      rw [hur, hsucc]
    exact this
  obtain ⟨hne, hnd⟩ := group_ok_props files gs hg
  have hmk : ∀ g ∈ gs, sf.getDirHash (headDirPath g) = headHashStr g := by
    intro g hgm
    have h' := loop_markers repo.blobCVE ch nf gs
      (initialUR t1 ch commit.commitTime files.length)
      (s.setRunRec (initialUR t1 ch commit.commitTime files.length))
      hne hnd (by rw [hloop] ; exact hurfErr) g hgm
    rw [hloop] at h'
    exact h'
  have hmk1 : ∀ g ∈ gs, s1.getDirHash (headDirPath g) = headHashStr g := by
    intro g hgm
    rw [← hs1]
    exact hmk g hgm
  obtain ⟨s2, hl2, hrecs, hdh⟩ := loop_skip repo.blobCVE ch nf gs
    (initialUR t3 ch commit.commitTime files.length)
    (s1.setRunRec (initialUR t3 ch commit.commitTime files.length))
    hne (fun g hgm => hmk1 g hgm)
  refine ⟨{ initialUR t3 ch commit.commitTime files.length with
              EndedAt := some t4 },
    s2.setRunRec { initialUR t3 ch commit.commitTime files.length with
      EndedAt := some t4 }, ?_, rfl, rfl, ?_, ?_⟩
  · rw [doUpdate]
    simp only [hcm, hrf, hg, hl2]
  · exact hrecs
  · exact hdh

/-- Witness for C4: a clean one-directory repo; the second run over the
first run's output state adds and modifies nothing and keeps the store. -/
theorem c4_witness :
    doUpdate c4Repo (mkHash 63) (fun _ => .ok true) 1 2 store0 =
      some ((some c4UR1, none), c4S1) ∧
    c4UR1.Error = "" ∧
    ∃ ur2 s2, doUpdate c4Repo (mkHash 63) (fun _ => .ok true) 3 4 c4S1 =
        some ((some ur2, none), s2) ∧
      ur2.NumAdded = 0 ∧ ur2.NumModified = 0 ∧
      s2.recs = c4S1.recs ∧ s2.dirHashes = c4S1.dirHashes := by
  refine ⟨by decide, by decide, ?_⟩
  exact c4_idempotent c4Repo (mkHash 63) (fun _ => .ok true) 1 2 3 4 store0
    c4UR1 c4S1 (by decide) (by decide)

end VulnWorker
